import Mathlib

/-!
TM1628 LED display / keypad driver

A shallow embedding of `Kernel_Driver_tm1628/tm1628_keys.c`.

Conventions of the embedding:

* a C `char` value is an `Int`, an `unsigned char` value is a `Nat`, a C string is the
  `List Int` of its characters (the terminating NUL is what `getD _ 0` reads past the end);
* loop counters and array indices (`int i`, `size_t j`) are `Nat`; the strings handled by the
  driver are at most a page long, so no counter overflows;
* a local array that the C code leaves uninitialised is a function `Nat → _` whose initial
  contents are a parameter (`junk`);
* every call of the GPIO / delay API is recorded, in program order, as an `Ev`; a function that
  drives the bus returns the list of the calls it makes (`pr_info` logging is not recorded);
* a `while` loop whose trip count depends on data runs on fuel and yields `none` when the fuel
  is exhausted; an access outside `key_buffer_global` yields `none` as well.
-/

namespace TM1628

/-! ## GPIO lines and the bus trace -/

/-- The three GPIO descriptors `gpiod_stb`, `gpiod_dio`, `gpiod_clk`. -/
inductive Line where
  | stb
  | dio
  | clk
  deriving DecidableEq, Repr

/-- One call of the GPIO / delay API. -/
inductive Ev where
  /-- Source: `gpiod_set_value(desc, value)` -/
  | set (desc : Line) (value : Nat)
  /-- Source: `udelay(us)` -/
  | delay (us : Nat)
  /-- Source: `gpiod_direction_input(gpiod_dio)` -/
  | dirIn
  /-- Source: `gpiod_direction_output(gpiod_dio, value)` -/
  | dirOut (value : Nat)
  deriving DecidableEq, Repr

/-- Source: `tm1628_gpio_set_desc` -/
def tm1628_gpio_set_desc (desc : Line) (value : Nat) : List Ev := [Ev.set desc value]

/-- Source: `tm1628_delay_us` -/
def tm1628_delay_us (us : Nat) : List Ev := [Ev.delay us]

/-- Body of the `for (i = 0; i < 8; i++)` loop of `tm1628_send_byte`; the first argument counts
the iterations still to run. -/
def tm1628_send_byte_loop (data : Nat) : Nat → Nat → List Ev
  | 0, _ => []
  | n + 1, i =>
    tm1628_gpio_set_desc Line.clk 0 ++ tm1628_delay_us 5 ++
    tm1628_gpio_set_desc Line.dio ((data >>> i) &&& 0x01) ++ tm1628_delay_us 5 ++
    tm1628_gpio_set_desc Line.clk 1 ++ tm1628_delay_us 5 ++
    tm1628_send_byte_loop data n (i + 1)

/-- Source: `tm1628_send_byte` -/
def tm1628_send_byte (data : Nat) : List Ev := tm1628_send_byte_loop data 8 0

/-- Source: `tm1628_send_command` -/
def tm1628_send_command (command : Nat) : List Ev :=
  tm1628_gpio_set_desc Line.stb 0 ++ tm1628_delay_us 5 ++
  tm1628_send_byte command ++ tm1628_delay_us 5 ++
  tm1628_gpio_set_desc Line.stb 1 ++ tm1628_delay_us 5

/-- Source: `tm1628_set_brightness` -/
def tm1628_set_brightness (level : Nat) : List Ev :=
  let cmd := 0x80 ||| (level &&& 0x0F)
  tm1628_send_command cmd

/-! ## Tables -/

/-- Source: `digit_map` -/
def digit_map : List Nat := [0x3F, 0x06, 0x5B, 0x4F, 0x66, 0x6D, 0x7D, 0x07, 0x7F, 0x6F]

/-- Source: `grid_addresses` -/
def grid_addresses : List Nat := [0xC0, 0xC2, 0xC4, 0xC6, 0xC8, 0xCA]

/-! ## Writing the display -/

/-- Loop of `tm1628_display_bitmap`; the first argument counts the iterations still to run. -/
def tm1628_display_bitmap_loop (bitmap : Nat → Nat) : Nat → Nat → Nat → List Ev
  | 0, _, _ => []
  | n + 1, i, address =>
    tm1628_gpio_set_desc Line.stb 0 ++ tm1628_delay_us 5 ++
    tm1628_send_byte address ++ tm1628_send_byte (bitmap i) ++
    tm1628_gpio_set_desc Line.stb 1 ++
    tm1628_display_bitmap_loop bitmap n (i + 1) ((address + 1) % 256)

/-- Source: `tm1628_display_bitmap` -/
def tm1628_display_bitmap (bitmap : Nat → Nat) : List Ev :=
  tm1628_display_bitmap_loop bitmap 14 0 0xC0 ++ tm1628_delay_us 5

/-- Loop of `tm1628_display_pattern`; the first argument counts the iterations still to run. -/
def tm1628_display_pattern_loop (pattern : List Nat) : Nat → Nat → List Ev
  | 0, _ => []
  | n + 1, i =>
    tm1628_gpio_set_desc Line.stb 0 ++ tm1628_delay_us 5 ++
    tm1628_send_byte (grid_addresses.getD i 0) ++ tm1628_send_byte (pattern.getD i 0) ++
    tm1628_gpio_set_desc Line.stb 1 ++
    tm1628_display_pattern_loop pattern n (i + 1)

/-- Source: `tm1628_display_pattern` -/
def tm1628_display_pattern (pattern : List Nat) : List Ev :=
  tm1628_display_pattern_loop pattern 6 0 ++ tm1628_delay_us 5

/-- Source: `tm1628_map_char`; the character codes are `'0'` = 48, `'9'` = 57, `'A'` = 65,
`'a'` = 97, `'z'` = 122. -/
def tm1628_map_char (c : Int) : Nat :=
  if 48 ≤ c ∧ c ≤ 57 then digit_map.getD (c - 48).toNat 0
  else
    let c := if 97 ≤ c ∧ c ≤ 122 then c - (97 - 65) else c
    if c = 65 then 0x77
    else if c = 66 then 0x7C
    else if c = 67 then 0x39
    else if c = 68 then 0x5E
    else if c = 69 then 0x79
    else if c = 70 then 0x71
    else if c = 71 then 0x3D
    else if c = 72 then 0x76
    else if c = 73 then 0x06
    else if c = 74 then 0x1E
    else if c = 75 then 0x76
    else if c = 76 then 0x38
    else if c = 77 then 0x37
    else if c = 78 then 0x54
    else if c = 79 then 0x3F
    else if c = 80 then 0x73
    else if c = 81 then 0x67
    else if c = 82 then 0x50
    else if c = 83 then 0x6D
    else if c = 84 then 0x78
    else if c = 85 then 0x3E
    else if c = 86 then 0x3E
    else if c = 87 then 0x2A
    else if c = 88 then 0x76
    else if c = 89 then 0x6E
    else if c = 90 then 0x5B
    else 0x00

/-- Library function `strlen`: the number of characters before the first NUL. -/
def strlen (str : List Int) : Nat := (str.takeWhile (fun c => c ≠ 0)).length

/-- Store into a local array: `a[i] = v`. -/
def aset {α : Type} (a : Nat → α) (i : Nat) (v : α) : Nat → α :=
  fun k => if k = i then v else a k

/-- First `while` loop of `tm1628_display_grids` (`'.'` = 46); the state is
`(i, pat_index, pattern)`. -/
def display_grids_loop (str : List Int) (len : Nat) :
    Nat → Nat → Nat → (Nat → Nat) → Option (Nat × (Nat → Nat))
  | 0, _, _, _ => none
  | fuel + 1, i, pat_index, pattern =>
    if i < len ∧ pat_index < 6 then
      if str.getD i 0 = 46 then
        display_grids_loop str len fuel (i + 1) pat_index pattern
      else
        let seg := tm1628_map_char (str.getD i 0)
        if i + 1 < len ∧ str.getD (i + 1) 0 = 46 then
          display_grids_loop str len fuel (i + 2) (pat_index + 1)
            (aset pattern pat_index (seg ||| 0x80))
        else
          display_grids_loop str len fuel (i + 1) (pat_index + 1) (aset pattern pat_index seg)
    else some (pat_index, pattern)

/-- Second `while` loop of `tm1628_display_grids`: `while (pat_index < 6) pattern[pat_index++] = 0`. -/
def display_grids_pad : Nat → Nat → (Nat → Nat) → Option (Nat → Nat)
  | 0, _, _ => none
  | fuel + 1, pat_index, pattern =>
    if pat_index < 6 then display_grids_pad fuel (pat_index + 1) (aset pattern pat_index 0x00)
    else some pattern

/-- The six bytes `pattern[0..5]` that `tm1628_display_grids` passes to
`tm1628_display_pattern`; `junk` is the initial content of the local array. -/
def display_grids_pattern (junk : Nat → Nat) (str : List Int) : Option (List Nat) :=
  let len := strlen str
  match display_grids_loop str len (len + 1) 0 0 junk with
  | none => none
  | some (pat_index, pattern) =>
    match display_grids_pad 7 pat_index pattern with
    | none => none
    | some pattern => some ((List.range 6).map pattern)

/-- Source: `tm1628_display_grids` -/
def tm1628_display_grids (junk : Nat → Nat) (str : List Int) : Option (List Ev) :=
  (display_grids_pattern junk str).map tm1628_display_pattern

/-- A string literal as a C string. -/
def cstr (s : String) : List Int := s.toList.map (fun c => (c.toNat : Int))

/-! ## What the device sees on the wire

The TM1628 samples DIO on the rising edge of CLK while STB is low, least significant bit first,
and a transaction is what is clocked in between a falling and the next rising edge of STB. -/

/-- Receiver state of the device. -/
structure Wire where
  stb : Bool
  clk : Bool
  dio : Bool
  /-- whether the host drives DIO -/
  out : Bool
  /-- number of bits received of the current byte -/
  nbits : Nat
  /-- the bits received of the current byte -/
  acc : Nat
  /-- the bytes of the open transaction -/
  frame : List Nat
  /-- the closed transactions, oldest first -/
  done : List (List Nat)
  deriving DecidableEq, Repr

/-- Lines idle high, as `tm1628_probe` requests them (`GPIOD_OUT_HIGH`). -/
def Wire.idle : Wire :=
  { stb := true, clk := true, dio := true, out := true, nbits := 0, acc := 0, frame := [],
    done := [] }

/-- Reaction of the device to one GPIO call. -/
def Wire.step (w : Wire) : Ev → Wire
  | Ev.set Line.stb v =>
    if w.stb ∧ v = 0 then { w with stb := false, nbits := 0, acc := 0, frame := [] }
    else if ¬ w.stb ∧ v ≠ 0 then
      { w with stb := true, nbits := 0, acc := 0, frame := [], done := w.done ++ [w.frame] }
    else w
  | Ev.set Line.dio v => { w with dio := decide (v ≠ 0) }
  | Ev.set Line.clk v =>
    if ¬ w.clk ∧ v ≠ 0 ∧ ¬ w.stb ∧ w.out then
      let acc := w.acc + (if w.dio then 1 else 0) * 2 ^ w.nbits
      if w.nbits = 7 then { w with clk := true, nbits := 0, acc := 0, frame := w.frame ++ [acc] }
      else { w with clk := true, nbits := w.nbits + 1, acc := acc }
    else { w with clk := decide (v ≠ 0) }
  | Ev.delay _ => w
  | Ev.dirIn => { w with out := false }
  | Ev.dirOut v => { w with out := true, dio := decide (v ≠ 0) }

/-- The strobe-framed transactions, as byte lists, that a trace of GPIO calls writes. -/
def busFrames (evs : List Ev) : List (List Nat) := (evs.foldl Wire.step Wire.idle).done

/-! ## The pairing rule of the display string, in the words of the specification -/

/-- The non-`'.'` characters of `s`, in order, each with the character that follows it in `s`
(the terminating NUL after the last one). -/
def nonDotChars (s : List Int) : List (Int × Int) :=
  (s.zip (s.tail ++ [0])).filter (fun p => p.1 ≠ 46)

/-- The segment byte of a character that is, or is not, followed by a dot. -/
def dotted (p : Int × Int) : Nat :=
  tm1628_map_char p.1 ||| (if p.2 = 46 then 0x80 else 0x00)

/-- The array `pat` after the bytes `r` were stored from index `pi` on, below index 6. -/
def fillFrom (pat : Nat → Nat) (pi : Nat) (r : List Nat) : Nat → Nat :=
  fun k => if pi ≤ k ∧ k < 6 ∧ k < pi + r.length then r.getD (k - pi) 0 else pat k

/-! ## Integer conversions -/

/-- Conversion of an `int` value to `char`; `sg` tells whether `char` is signed. -/
def toChar (sg : Bool) (v : Int) : Int :=
  if sg then (v + 128) % 256 - 128 else v % 256

/-- Conversion to `unsigned char`, also the value of a `char` object read through an
`unsigned char` pointer. -/
def toUChar (v : Int) : Nat := (v % 256).toNat

/-- Conversion of an `unsigned long` value to `int`. -/
def toInt32 (v : Nat) : Int := ((v : Int) + 2 ^ 31) % 2 ^ 32 - 2 ^ 31

/-- Kernel errno constant `EINVAL`. -/
def EINVAL : Int := 22

/-- Kernel errno constant `ERANGE`. -/
def ERANGE : Int := 34

/-! ## Kernel library functions used by the handlers -/

/-- Final comparisons of the Linux kernel function `sysfs_streq` (lib/string.c), on the two
positions reached by its loop. -/
def sysfs_streq_tail (s1 s2 : List Int) : Bool :=
  if s1.getD 0 0 = s2.getD 0 0 then true
  else if s1.getD 0 0 = 0 ∧ s2.getD 0 0 = 10 ∧ s2.getD 1 0 = 0 then true
  else if s1.getD 0 0 = 10 ∧ s1.getD 1 0 = 0 ∧ s2.getD 0 0 = 0 then true
  else false

/-- Linux kernel function `sysfs_streq` (lib/string.c): equality of two C strings where a
single trailing newline of either is ignored. The loop is
`while (*s1 && *s1 == *s2) { s1++; s2++; }`. -/
def sysfs_streq : List Int → List Int → Bool
  | c1 :: s1, c2 :: s2 =>
    if c1 ≠ 0 ∧ c1 = c2 then sysfs_streq s1 s2 else sysfs_streq_tail (c1 :: s1) (c2 :: s2)
  | s1, s2 => sysfs_streq_tail s1 s2

/-- Linux kernel function `kstrtoul(s, 10, &val)` (lib/kstrtox.c) for a kernel whose
`unsigned long` has `bitsPerLong` bits: an optional `'+'`, at least one decimal digit, an
optional single newline, then the end of the string. The result is the value, `-ERANGE` when it
does not fit, `-EINVAL` when the text is malformed. -/
def kstrtoul (bitsPerLong : Nat) (s : List Int) : Except Int Nat :=
  let s := if s.getD 0 0 = 43 then s.drop 1 else s
  let digits := s.takeWhile (fun c => 48 ≤ c ∧ c ≤ 57)
  let rest := s.drop digits.length
  let val := digits.foldl (fun a c => a * 10 + (c - 48).toNat) 0
  if 2 ^ 64 ≤ val then Except.error (-ERANGE)
  else if digits.length = 0 then Except.error (-EINVAL)
  else
    let rest := if rest.getD 0 0 = 10 then rest.drop 1 else rest
    if rest.getD 0 0 ≠ 0 then Except.error (-EINVAL)
    else if 2 ^ bitsPerLong ≤ val then Except.error (-ERANGE)
    else Except.ok val

/-- Library call `memmove(a + dst, a + src, n)` inside the array `a`; `none` when a byte outside the array
would be touched (a negative `n` converts to a huge `size_t`). -/
def memmove (a : List Int) (dst src : Nat) (n : Int) : Option (List Int) :=
  if 0 ≤ n ∧ src + n.toNat ≤ a.length ∧ dst + n.toNat ≤ a.length then
    some (a.take dst ++ (a.drop src).take n.toNat ++ a.drop (dst + n.toNat))
  else none

/-! ## Driver state -/

/-- Source: `KEY_BUFFER_SIZE` -/
def KEY_BUFFER_SIZE : Nat := 64

/-- The file-scope variables of the driver. -/
structure Driver where
  current_brightness : Int
  time_enabled : Int
  /-- the C string held in `grids_str` -/
  grids_str : List Int
  mode_cmd : Nat
  /-- the `KEY_BUFFER_SIZE` characters of the array -/
  key_buffer_global : List Int
  key_buffer_index_global : Int
  deriving DecidableEq, Repr

/-- The initialisers of the file-scope variables. -/
def Driver.init : Driver :=
  { current_brightness := 10
    time_enabled := 0
    grids_str := cstr "000000"
    mode_cmd := 0x02
    key_buffer_global := List.replicate KEY_BUFFER_SIZE 0
    key_buffer_index_global := 0 }

/-- Read `a[i]`; `none` outside the array. -/
def bufGet (a : List Int) (i : Int) : Option Int :=
  if 0 ≤ i ∧ i < a.length then a[i.toNat]? else none

/-- Store `a[i] = v`; `none` outside the array. -/
def bufSet (a : List Int) (i : Int) (v : Int) : Option (List Int) :=
  if 0 ≤ i ∧ i < a.length then some (a.set i.toNat v) else none

/-- Source: `tm1628_init_display` -/
def tm1628_init_display (d : Driver) : List Ev :=
  tm1628_send_command d.mode_cmd ++
  tm1628_send_command 0x40 ++
  tm1628_set_brightness (toUChar d.current_brightness)

/-! ## Key scanning -/

/-- Source: `struct key_pos` -/
structure key_pos where
  byte : Nat
  bit : Nat
  key : Int
  deriving DecidableEq, Repr

/-- Source: `key_map` (`'0'` = 48, ..., `'9'` = 57). -/
def key_map : List key_pos :=
  [ ⟨0, 0, 50⟩, ⟨0, 1, 49⟩, ⟨0, 3, 52⟩, ⟨0, 4, 51⟩, ⟨1, 0, 53⟩,
    ⟨1, 1, 54⟩, ⟨1, 3, 55⟩, ⟨1, 4, 56⟩, ⟨2, 0, 57⟩, ⟨2, 1, 48⟩ ]

/-- Loop of `get_pressed_key_driver`; the first argument counts the iterations still to run,
and running off the end is the final `return '\0'`. -/
def get_pressed_key_driver_loop (key_data : List Nat) : Nat → Nat → Int
  | 0, _ => 0
  | n + 1, i =>
    let e := key_map.getD i ⟨0, 0, 0⟩
    if key_data.getD e.byte 0 &&& (1 <<< e.bit) ≠ 0 then e.key
    else get_pressed_key_driver_loop key_data n (i + 1)

/-- Source: `get_pressed_key_driver` -/
def get_pressed_key_driver (key_data : List Nat) : Int :=
  get_pressed_key_driver_loop key_data 10 0

/-- The block `if (key != '\0') { ... }` of `tm1628_thread_fn` that appends `key` to the key
buffer. -/
def thread_append (key : Int) (d : Driver) : Option Driver :=
  if key ≠ 0 then
    if d.key_buffer_index_global < (KEY_BUFFER_SIZE : Int) - 1 then
      match bufSet d.key_buffer_global d.key_buffer_index_global key with
      | none => none
      | some b =>
        let idx := d.key_buffer_index_global + 1
        match bufSet b idx 0 with
        | none => none
        | some b => some { d with key_buffer_global := b, key_buffer_index_global := idx }
    else some d
  else some d

/-- The key part of one iteration of the polling loop of `tm1628_thread_fn`, for the five bytes
`key_data` that `tm1628_read_keys_driver` has read. -/
def thread_key_block (key_data : List Nat) (d : Driver) : Option Driver :=
  let key := get_pressed_key_driver key_data
  thread_append key d

/-! ## Sysfs handlers

A `store` handler gets the written bytes `buf` (`count` is their number); a `show` handler
yields the text it prints. -/

/-- Source: `keys_show`: the printed text and the new state. -/
def keys_show (d : Driver) : Option (List Int × Driver) :=
  if d.key_buffer_index_global > 0 then
    match bufGet d.key_buffer_global 0 with
    | none => none
    | some out =>
      match memmove d.key_buffer_global 0 1 d.key_buffer_index_global with
      | none => none
      | some b =>
        some ([out, 10],
          { d with key_buffer_global := b
                   key_buffer_index_global := d.key_buffer_index_global - 1 })
  else some (cstr "0\n", d)

/-- Source: `keys_store`: the return value, the new state and the bus trace. -/
def keys_store (junk : Nat → Nat) (buf : List Int) (d : Driver) :
    Option (Int × Driver × List Ev) :=
  let count : Int := buf.length
  if sysfs_streq buf (cstr "clear") then
    let d := { d with key_buffer_global := List.replicate KEY_BUFFER_SIZE 0
                      key_buffer_index_global := 0 }
    match tm1628_display_grids junk (cstr "0.0.0.0.0.0") with
    | none => none
    | some evs => some (count, d, evs)
  else if sysfs_streq buf (cstr "show") then
    match tm1628_display_grids junk d.key_buffer_global with
    | none => none
    | some evs => some (count, d, evs)
  else some (count, d, [])

/-- Source: `brightness_store` -/
def brightness_store (bitsPerLong : Nat) (buf : List Int) (d : Driver) :
    Int × Driver × List Ev :=
  let count : Int := buf.length
  match kstrtoul bitsPerLong buf with
  | Except.error ret => (ret, d, [])
  | Except.ok val =>
    let val := if val > 15 then 15 else val
    let d := { d with current_brightness := toInt32 val }
    (count, d, tm1628_set_brightness (toUChar d.current_brightness))

/-- Classification of one character by `display_raw_store`: the new content of `tmp`, or
`none` for `return -EINVAL`. -/
def display_raw_store_digit (sg : Bool) (tmp : Nat → Int) (i : Nat) : Option (Nat → Int) :=
  if 48 ≤ tmp i ∧ tmp i ≤ 57 then some (aset tmp i (toChar sg (tmp i - 48)))
  else if 65 ≤ tmp i ∧ tmp i ≤ 70 then some (aset tmp i (toChar sg (tmp i - 65 + 10)))
  else if 97 ≤ tmp i ∧ tmp i ≤ 102 then some (aset tmp i (toChar sg (tmp i - 97 + 10)))
  else none

/-- Loop of `display_raw_store`; the first argument counts the iterations still to run, the
state is `(i, j, tmp, bitdata)`. -/
def display_raw_store_loop (sg : Bool) (buf : List Int) :
    Nat → Nat → Nat → (Nat → Int) → (Nat → Int) → Except Int (Nat → Int)
  | 0, _, _, _, bitdata => Except.ok bitdata
  | n + 1, i, j, tmp, bitdata =>
    let tmp := aset tmp i (buf.getD i 0)
    match display_raw_store_digit sg tmp i with
    | none => Except.error (-EINVAL)
    | some tmp =>
      if i &&& 0x1 ≠ 0 then
        display_raw_store_loop sg buf n (i + 1) (j + 1) tmp
          (aset bitdata j (toChar sg (Int.lor (tmp (i - 1) <<< (4 : Int)) (tmp i))))
      else display_raw_store_loop sg buf n (i + 1) j tmp bitdata

/-- Source: `display_raw_store`: the return value and the bus trace; `junk_tmp` and `junk_bitdata`
are the initial contents of the two local arrays. -/
def display_raw_store (sg : Bool) (junk_tmp junk_bitdata : Nat → Int) (buf : List Int) :
    Int × List Ev :=
  let count : Int := buf.length
  if count ≠ 28 then (-EINVAL, [])
  else
    match display_raw_store_loop sg buf 28 0 0 junk_tmp junk_bitdata with
    | Except.error ret => (ret, [])
    | Except.ok bitdata => (count, tm1628_display_bitmap (fun k => toUChar (bitdata k)))

/-- Source: `displaymode_config_show`: the printed text. -/
def displaymode_config_show (d : Driver) : List Int :=
  let cfg :=
    if d.mode_cmd = 0x00 then cstr "4x13"
    else if d.mode_cmd = 0x01 then cstr "5x12"
    else if d.mode_cmd = 0x02 then cstr "6x11"
    else if d.mode_cmd = 0x03 then cstr "7x10"
    else cstr "unknown"
  cfg ++ cstr "\n"

/-- Source: `displaymode_config_store` -/
def displaymode_config_store (buf : List Int) (d : Driver) : Int × Driver × List Ev :=
  let count : Int := buf.length
  if sysfs_streq buf (cstr "4x13") then
    let d := { d with mode_cmd := 0x00 }
    (count, d, tm1628_init_display d)
  else if sysfs_streq buf (cstr "5x12") then
    let d := { d with mode_cmd := 0x01 }
    (count, d, tm1628_init_display d)
  else if sysfs_streq buf (cstr "6x11") then
    let d := { d with mode_cmd := 0x02 }
    (count, d, tm1628_init_display d)
  else if sysfs_streq buf (cstr "7x10") then
    let d := { d with mode_cmd := 0x03 }
    (count, d, tm1628_init_display d)
  else (-EINVAL, d, [])

/-! ## Vocabulary of the specification -/

/-- A hexadecimal digit: `0-9`, `A-F`, `a-f`. -/
def isHexChar (c : Int) : Prop :=
  (48 ≤ c ∧ c ≤ 57) ∨ (65 ≤ c ∧ c ≤ 70) ∨ (97 ≤ c ∧ c ≤ 102)

instance (c : Int) : Decidable (isHexChar c) := by
  unfold isHexChar
  exact inferInstance

/-- The value of a hexadecimal digit. -/
def hexval (c : Int) : Nat :=
  if c ≤ 57 then (c - 48).toNat else if c ≤ 70 then (c - 65).toNat + 10 else (c - 97).toNat + 10

/-- The text of a written buffer as a C string: what precedes its first NUL. -/
def ctext (buf : List Int) : List Int := buf.takeWhile (fun c => c ≠ 0)

/-- The four valid display mode names. -/
def modeNames : List (List Int) := [cstr "4x13", cstr "5x12", cstr "6x11", cstr "7x10"]

/-- A key position is pressed in a scan when its bit is set in its scan byte. -/
def pressed (key_data : List Nat) (e : key_pos) : Bool :=
  (key_data.getD e.byte 0).testBit e.bit

/-- The keys waiting in the queue, oldest first. -/
def queued (d : Driver) : List Int :=
  d.key_buffer_global.take d.key_buffer_index_global.toNat

/-- The key buffer holds the keys `ks`, oldest first, followed by the NUL terminator, and the
index counts them. -/
def QueueHolds (d : Driver) (ks : List Int) : Prop :=
  ∃ rest, d.key_buffer_global = ks ++ 0 :: rest ∧
    ks.length + 1 + rest.length = KEY_BUFFER_SIZE ∧
    d.key_buffer_index_global = ks.length

/-- The text of `clear`, with or without the newline. -/
def clearText (newline : Bool) : List Int := if newline then cstr "clear\n" else cstr "clear"

/-- Run `keys_show` `n` times, collecting the printed texts. -/
def popMany : Nat → Driver → Option (List (List Int) × Driver)
  | 0, d => some ([], d)
  | n + 1, d =>
    match keys_show d with
    | none => none
    | some (out, d) =>
      match popMany n d with
      | none => none
      | some (outs, d) => some (out :: outs, d)

/-- Append the keys of a list in order, as successive iterations of the polling loop do. -/
def appendMany : List Int → Driver → Option Driver
  | [], d => some d
  | key :: keys, d =>
    match thread_append key d with
    | none => none
    | some d => appendMany keys d

/-- An operation on the key queue. -/
inductive QueueOp where
  /-- an iteration of the polling loop that has read `key_data` -/
  | scan (key_data : List Nat)
  /-- a read of the `keys` attribute -/
  | pop
  /-- a write of `clear` to the `keys` attribute, with or without the newline -/
  | clear (junk : Nat → Nat) (newline : Bool)

/-- The effect of a queue operation on the driver state. -/
def QueueOp.run : QueueOp → Driver → Option Driver
  | QueueOp.scan key_data, d => thread_key_block key_data d
  | QueueOp.pop, d => (keys_show d).map (fun r => r.2)
  | QueueOp.clear junk newline, d =>
    (keys_store junk (clearText newline) d).map (fun r => r.2.1)

/-- Run a sequence of queue operations. -/
def runOps : List QueueOp → Driver → Option Driver
  | [], d => some d
  | op :: ops, d =>
    match op.run d with
    | none => none
    | some d => runOps ops d

/-- The bound and terminator invariant of the key buffer. -/
def QueueInv (d : Driver) : Prop :=
  d.key_buffer_global.length = KEY_BUFFER_SIZE ∧
  0 ≤ d.key_buffer_index_global ∧
  d.key_buffer_index_global ≤ (KEY_BUFFER_SIZE : Int) - 1 ∧
  bufGet d.key_buffer_global d.key_buffer_index_global = some 0

/-! ## Theorems -/

theorem tm1628_map_char_lt (c : Int) : tm1628_map_char c < 128 := by
  unfold tm1628_map_char
  by_cases h : 48 ≤ c ∧ c ≤ 57
  · rw [if_pos h]
    obtain ⟨h1, h2⟩ := h
    have : (c - 48).toNat < 10 := by omega
    generalize (c - 48).toNat = n at this
    interval_cases n <;> simp [digit_map]
  · rw [if_neg h]
    generalize (if 97 ≤ c ∧ c ≤ 122 then c - (97 - 65) else c) = d
    show (if d = 65 then _ else _) < 128
    by_cases hd : 65 ≤ d ∧ d ≤ 90
    · obtain ⟨h1, h2⟩ := hd
      interval_cases d <;> decide
    · iterate 26 rw [if_neg (by omega)]
      decide

theorem nonDotChars_cons (c : Int) (t : List Int) :
    nonDotChars (c :: t) =
      if c = 46 then nonDotChars t else (c, (t ++ [0]).headD 0) :: nonDotChars t := by
  cases t <;> by_cases h : c = 46 <;> simp [nonDotChars, List.filter_cons, h]

theorem fillFrom_nil (pat : Nat → Nat) (pi : Nat) : fillFrom pat pi [] = pat := by
  funext k
  simp [fillFrom]
  omega

theorem fillFrom_full (pat : Nat → Nat) (pi : Nat) (r : List Nat) (h : 6 ≤ pi) :
    fillFrom pat pi r = pat := by
  funext k
  simp [fillFrom]
  omega

theorem fillFrom_cons (pat : Nat → Nat) (pi v : Nat) (r : List Nat) (h : pi < 6) :
    fillFrom (aset pat pi v) (pi + 1) r = fillFrom pat pi (v :: r) := by
  funext k
  unfold fillFrom aset
  simp only [List.length_cons]
  by_cases hk : k = pi
  · subst hk
    simp [h]
  · by_cases hlt : k < pi
    · have h1 : ¬ (pi + 1 ≤ k ∧ k < 6 ∧ k < pi + 1 + r.length) := by omega
      have h2 : ¬ (pi ≤ k ∧ k < 6 ∧ k < pi + (r.length + 1)) := by omega
      rw [if_neg h1, if_neg h2, if_neg hk]
    · obtain ⟨m, rfl⟩ : ∃ m, k = pi + 1 + m := ⟨k - (pi + 1), by omega⟩
      have e1 : pi + 1 + m - (pi + 1) = m := by omega
      have e2 : pi + 1 + m - pi = m + 1 := by omega
      rw [e1, e2, List.getD_cons_succ, if_neg hk]
      by_cases hc : pi + 1 + m < 6 ∧ m < r.length
      · rw [if_pos (by omega), if_pos (by omega)]
      · rw [if_neg (by omega), if_neg (by omega)]

theorem strlen_eq_length (s : List Int) (h : ∀ c ∈ s, c ≠ 0) : strlen s = s.length := by
  unfold strlen
  have : s.takeWhile (fun c => decide (c ≠ 0)) = s :=
    List.takeWhile_eq_self_iff.mpr (fun c hc => by simpa using h c hc)
  rw [this]

/-- The bytes of the pairing rule for the part of the string from position `i` on. -/
theorem display_grids_loop_spec (s : List Int) :
    ∀ fuel i pi pat, i ≤ s.length → pi ≤ 6 → s.length - i < fuel →
      display_grids_loop s s.length fuel i pi pat =
        some (min 6 (pi + ((nonDotChars (s.drop i)).map dotted).length),
              fillFrom pat pi ((nonDotChars (s.drop i)).map dotted)) := by
  intro fuel
  induction fuel with
  | zero => intro i pi pat _ _ h; omega
  | succ fuel ih =>
    intro i pi pat hi hpi hfuel
    unfold display_grids_loop
    by_cases hc : i < s.length ∧ pi < 6
    · obtain ⟨hil, hp6⟩ := hc
      rw [if_pos ⟨hil, hp6⟩]
      have hdrop : s.drop i = s[i] :: s.drop (i + 1) := List.drop_eq_getElem_cons hil
      have hget : s.getD i 0 = s[i] := List.getD_eq_getElem s 0 hil
      rw [hget, hdrop, nonDotChars_cons]
      by_cases hdot : s[i] = 46
      · rw [if_pos hdot, if_pos hdot]
        exact ih (i + 1) pi pat (by omega) hpi (by omega)
      · rw [if_neg hdot, if_neg hdot]
        simp only [List.map_cons, List.length_cons]
        by_cases hnext : i + 1 < s.length ∧ s.getD (i + 1) 0 = 46
        · obtain ⟨hil1, hn⟩ := hnext
          rw [if_pos ⟨hil1, hn⟩]
          have hget1 : s.getD (i + 1) 0 = s[i + 1] := List.getD_eq_getElem s 0 hil1
          have hdrop1 : s.drop (i + 1) = s[i + 1] :: s.drop (i + 2) :=
            List.drop_eq_getElem_cons hil1
          have h46 : s[i + 1] = 46 := by rw [← hget1]; exact hn
          have hhead : (s.drop (i + 1) ++ [0]).headD 0 = 46 := by
            rw [hdrop1]; exact h46
          have htail : nonDotChars (s.drop (i + 1)) = nonDotChars (s.drop (i + 2)) := by
            rw [hdrop1, nonDotChars_cons, if_pos h46]
          rw [ih (i + 2) (pi + 1) _ (by omega) (by omega) (by omega), hhead, htail,
            fillFrom_cons _ _ _ _ hp6]
          have hd : dotted (s[i], 46) = tm1628_map_char s[i] ||| 0x80 := by simp [dotted]
          rw [hd]
          congr 2
          omega
        · rw [if_neg hnext]
          have hhead : (s.drop (i + 1) ++ [0]).headD 0 ≠ 46 := by
            by_cases hil1 : i + 1 < s.length
            · have hget1 : s.getD (i + 1) 0 = s[i + 1] := List.getD_eq_getElem s 0 hil1
              rw [List.drop_eq_getElem_cons hil1]
              intro h
              exact hnext ⟨hil1, by rw [hget1]; exact h⟩
            · rw [List.drop_eq_nil_of_le (by omega)]
              decide
          rw [ih (i + 1) (pi + 1) _ (by omega) (by omega) (by omega),
            fillFrom_cons _ _ _ _ hp6]
          have hd : dotted (s[i], (s.drop (i + 1) ++ [0]).headD 0) = tm1628_map_char s[i] := by
            show tm1628_map_char s[i] ||| (if _ = 46 then 0x80 else 0x00) = _
            rw [if_neg hhead, Nat.or_zero]
          rw [hd]
          congr 2
          omega
    · rw [if_neg hc]
      by_cases hil : i < s.length
      · have hp : 6 ≤ pi := by
          by_contra h
          exact hc ⟨hil, by omega⟩
        rw [fillFrom_full _ _ _ hp]
        congr 2
        omega
      · rw [List.drop_eq_nil_of_le (by omega)]
        simp [nonDotChars, fillFrom_nil]
        omega

theorem display_grids_pad_spec :
    ∀ fuel pi pat, 6 - pi < fuel →
      display_grids_pad fuel pi pat = some (fun k => if pi ≤ k ∧ k < 6 then 0 else pat k) := by
  intro fuel
  induction fuel with
  | zero => intro pi pat h; omega
  | succ fuel ih =>
    intro pi pat hfuel
    unfold display_grids_pad
    by_cases hp : pi < 6
    · rw [if_pos hp, ih (pi + 1) _ (by omega)]
      congr 1
      funext k
      unfold aset
      by_cases hk : k = pi
      · subst hk
        simp [hp]
      · by_cases h1 : pi + 1 ≤ k ∧ k < 6
        · rw [if_pos h1, if_pos (by omega)]
        · rw [if_neg h1, if_neg hk]
          by_cases h2 : pi ≤ k ∧ k < 6
          · omega
          · rw [if_neg h2]
    · rw [if_neg hp]
      congr 1
      funext k
      rw [if_neg (by omega)]

/-- Closed form of the pattern: grid `k` shows the `k`-th byte of the pairing rule, or blank. -/
theorem display_grids_pattern_eq (junk : Nat → Nat) (s : List Int) (h : ∀ c ∈ s, c ≠ 0) :
    display_grids_pattern junk s =
      some ((List.range 6).map (fun k => ((nonDotChars s).map dotted).getD k 0)) := by
  unfold display_grids_pattern
  simp only [strlen_eq_length s h]
  rw [display_grids_loop_spec s (s.length + 1) 0 0 junk (by omega) (by omega) (by omega)]
  simp only [List.drop_zero]
  rw [display_grids_pad_spec 7 _ _ (by omega)]
  show some _ = some _
  congr 1
  apply List.map_congr_left
  intro k hk
  have hk6 : k < 6 := List.mem_range.mp hk
  simp only [fillFrom, Nat.zero_add, Nat.zero_le, true_and, Nat.sub_zero]
  by_cases hlen : k < ((nonDotChars s).map dotted).length
  · rw [if_neg (by omega), if_pos ⟨hk6, hlen⟩]
  · rw [if_pos (by omega), List.getD_eq_default _ _ (by omega)]

theorem dp_bit_facts : ∀ m, m < 128 →
    (m ||| 0x80) &&& 0x80 = 0x80 ∧ (m ||| 0x00) &&& 0x80 = 0 ∧ m ||| 0x00 = m := by
  decide

/-- C1: for every string `s` without an embedded NUL, `tm1628_display_grids` terminates and
hands exactly six pattern bytes to `tm1628_display_pattern`. With `c_0, c_1, ...` the
non-dot characters of `s` in order, byte `k < 6` is `tm1628_map_char c_k`, with bit `0x80`
set if and only if `c_k` is immediately followed by a dot in `s`, and byte `k` is `0x00` when
`s` has `k` or fewer non-dot characters. The result does not depend on the previous content
of the local array. -/
theorem display_grids_pairing_rule (junk : Nat → Nat) (s : List Int) (h : ∀ c ∈ s, c ≠ 0) :
    ∃ pat : List Nat,
      display_grids_pattern junk s = some pat ∧
      tm1628_display_grids junk s = some (tm1628_display_pattern pat) ∧
      pat.length = 6 ∧
      ∀ k, k < 6 →
        match (nonDotChars s)[k]? with
        | some (c, next) =>
          pat.getD k 0 = tm1628_map_char c ||| (if next = 46 then 0x80 else 0x00) ∧
          (pat.getD k 0 &&& 0x80 = 0x80 ↔ next = 46)
        | none => pat.getD k 0 = 0x00 := by
  refine ⟨_, display_grids_pattern_eq junk s h, ?_, by simp, ?_⟩
  · unfold tm1628_display_grids
    rw [display_grids_pattern_eq junk s h]
    rfl
  · intro k hk
    have hget : ((List.range 6).map
        (fun k => ((nonDotChars s).map dotted).getD k 0)).getD k 0 =
        ((nonDotChars s).map dotted).getD k 0 := by
      interval_cases k <;> rfl
    rw [hget]
    cases hc : (nonDotChars s)[k]? with
    | none =>
      show ((nonDotChars s).map dotted).getD k 0 = 0
      simp [hc]
    | some p =>
      obtain ⟨c, next⟩ := p
      show ((nonDotChars s).map dotted).getD k 0 = _ ∧ _
      have hd : ((nonDotChars s).map dotted).getD k 0 = dotted (c, next) := by simp [hc]
      rw [hd]
      have hm := dp_bit_facts (tm1628_map_char c) (tm1628_map_char_lt c)
      refine ⟨rfl, ?_⟩
      show (tm1628_map_char c ||| (if next = 46 then 0x80 else 0x00)) &&& 0x80 = 0x80 ↔ _
      by_cases hn : next = 46
      · rw [if_pos hn]
        exact ⟨fun _ => hn, fun _ => hm.1⟩
      · rw [if_neg hn, hm.2.1]
        exact ⟨fun h0 => absurd h0 (by decide), fun h1 => absurd h1 hn⟩

/-- Witness for C1: leading and repeated dots, a dotted and an undotted character, a
character without a segment pattern, and more than six characters. -/
theorem display_grids_pairing_rule_witness :
    (∀ c ∈ cstr "..a..b.-cdefgh.i", c ≠ 0) ∧
    ∃ pat : List Nat,
      display_grids_pattern (fun _ => 0xFF) (cstr "..a..b.-cdefgh.i") = some pat ∧
      tm1628_display_grids (fun _ => 0xFF) (cstr "..a..b.-cdefgh.i") =
        some (tm1628_display_pattern pat) ∧
      pat.length = 6 ∧
      ∀ k, k < 6 →
        match (nonDotChars (cstr "..a..b.-cdefgh.i"))[k]? with
        | some (c, next) =>
          pat.getD k 0 = tm1628_map_char c ||| (if next = 46 then 0x80 else 0x00) ∧
          (pat.getD k 0 &&& 0x80 = 0x80 ↔ next = 46)
        | none => pat.getD k 0 = 0x00 :=
  ⟨by decide, display_grids_pairing_rule (fun _ => 0xFF) (cstr "..a..b.-cdefgh.i") (by decide)⟩

/-- C2, as stated, fails: in `"1.2.3.4.5.6"` the final `6` is followed by no dot, so grid 5
is `0x7D` in both patterns and the pattern is not that of `"123456"` with the decimal point
set on all six grids. -/
theorem display_grids_dots_counterexample :
    display_grids_pattern (fun _ => 0) (cstr "1.2.3.4.5.6") =
      some [0x86, 0xDB, 0xCF, 0xE6, 0xED, 0x7D] ∧
    display_grids_pattern (fun _ => 0) (cstr "123456") =
      some [0x06, 0x5B, 0x4F, 0x66, 0x6D, 0x7D] ∧
    ¬ (∃ p q, display_grids_pattern (fun _ => 0) (cstr "1.2.3.4.5.6") = some p ∧
        display_grids_pattern (fun _ => 0) (cstr "123456") = some q ∧
        ∀ k, k < 6 → p.getD k 0 = q.getD k 0 ||| 0x80) := by
  refine ⟨by decide, by decide, ?_⟩
  rintro ⟨p, q, hp, hq, hall⟩
  have h1 : display_grids_pattern (fun _ => 0) (cstr "1.2.3.4.5.6") =
      some [0x86, 0xDB, 0xCF, 0xE6, 0xED, 0x7D] := by decide
  have h2 : display_grids_pattern (fun _ => 0) (cstr "123456") =
      some [0x06, 0x5B, 0x4F, 0x66, 0x6D, 0x7D] := by decide
  rw [h1] at hp
  rw [h2] at hq
  cases hp
  cases hq
  exact absurd (hall 5 (by decide)) (by decide)

/-- C2, amended: `"1.2.3.4.5.6"` renders as `"123456"` with the decimal-point bit `0x80` set
on grids 0 through 4; grid 5, whose `6` is followed by no dot, is the same byte `0x7D` in
both, with the decimal-point bit clear. The two patterns are `86 DB CF E6 ED 7D` and
`06 5B 4F 66 6D 7D`, whatever the previous content of the local array. -/
theorem display_grids_dots_amended (junk : Nat → Nat) :
    ∃ p q, display_grids_pattern junk (cstr "1.2.3.4.5.6") = some p ∧
      display_grids_pattern junk (cstr "123456") = some q ∧
      p.length = 6 ∧ q.length = 6 ∧
      (∀ k, k < 5 → p.getD k 0 = q.getD k 0 ||| 0x80 ∧ q.getD k 0 &&& 0x80 = 0) ∧
      p.getD 5 0 = q.getD 5 0 ∧ p.getD 5 0 &&& 0x80 = 0 ∧
      p.getD 5 0 = 0x7D ∧ q.getD 5 0 = 0x7D ∧
      p = [0x86, 0xDB, 0xCF, 0xE6, 0xED, 0x7D] ∧
      q = [0x06, 0x5B, 0x4F, 0x66, 0x6D, 0x7D] := by
  refine ⟨_, _, display_grids_pattern_eq junk _ (by decide),
    display_grids_pattern_eq junk _ (by decide), by simp, by simp, ?_, by decide, by decide,
    by decide, by decide, by decide, by decide⟩
  intro k hk
  interval_cases k <;> decide

theorem bit_at (data i : Nat) : (data >>> i) &&& 0x01 = data / 2 ^ i % 2 := by
  rw [Nat.shiftRight_eq_div_pow, Nat.and_one_is_mod]

theorem wire_send_bit (w : Wire) (b : Nat) (hstb : w.stb = false) (hout : w.out = true)
    (hb : b < 2) :
    (tm1628_gpio_set_desc Line.clk 0 ++ tm1628_delay_us 5 ++
      tm1628_gpio_set_desc Line.dio b ++ tm1628_delay_us 5 ++
      tm1628_gpio_set_desc Line.clk 1 ++ tm1628_delay_us 5).foldl Wire.step w =
      if w.nbits = 7 then
        { w with clk := true, dio := decide (b ≠ 0), nbits := 0, acc := 0,
                 frame := w.frame ++ [w.acc + b * 2 ^ w.nbits] }
      else
        { w with clk := true, dio := decide (b ≠ 0), nbits := w.nbits + 1,
                 acc := w.acc + b * 2 ^ w.nbits } := by
  have hb' : b = 0 ∨ b = 1 := by omega
  rcases hb' with rfl | rfl <;>
    simp [tm1628_gpio_set_desc, tm1628_delay_us, Wire.step, hstb, hout]

theorem wire_send_byte_loop (data : Nat) :
    ∀ n i (w : Wire), i + (n + 1) = 8 → w.stb = false → w.out = true → w.nbits = i →
      w.acc = data % 2 ^ i →
      ∃ w', (tm1628_send_byte_loop data (n + 1) i).foldl Wire.step w = w' ∧
        w'.stb = false ∧ w'.out = true ∧ w'.nbits = 0 ∧ w'.acc = 0 ∧
        w'.frame = w.frame ++ [data % 256] ∧ w'.done = w.done := by
  intro n
  induction n with
  | zero =>
    intro i w hi hstb hout hn hacc
    have hi7 : i = 7 := by omega
    subst hi7
    have hb : (data >>> 7) &&& 0x01 < 2 := by rw [bit_at]; omega
    unfold tm1628_send_byte_loop tm1628_send_byte_loop
    rw [List.append_nil, wire_send_bit w _ hstb hout hb, if_pos hn]
    refine ⟨_, rfl, hstb, hout, rfl, rfl, ?_, rfl⟩
    show w.frame ++ [w.acc + _ * 2 ^ w.nbits] = _
    rw [hacc, hn, bit_at]
    congr 2
    omega
  | succ n ih =>
    intro i w hi hstb hout hn hacc
    have hb : (data >>> i) &&& 0x01 < 2 := by rw [bit_at]; omega
    unfold tm1628_send_byte_loop
    rw [List.foldl_append, wire_send_bit w _ hstb hout hb, if_neg (by omega)]
    obtain ⟨w', h1, h2, h3, h4, h5, h6, h7⟩ := ih (i + 1)
      { w with clk := true, dio := decide ((data >>> i) &&& 0x01 ≠ 0), nbits := w.nbits + 1,
               acc := w.acc + ((data >>> i) &&& 0x01) * 2 ^ w.nbits }
      (by omega) hstb hout
      (by show w.nbits + 1 = i + 1; omega)
      (by
        show w.acc + _ * 2 ^ w.nbits = _
        rw [hacc, hn, bit_at, Nat.mod_pow_succ, Nat.mul_comm])
    exact ⟨w', h1, h2, h3, h4, h5, h6, h7⟩

theorem wire_send_byte (data : Nat) (w : Wire) (hstb : w.stb = false) (hout : w.out = true)
    (hn : w.nbits = 0) (hacc : w.acc = 0) :
    ∃ w', (tm1628_send_byte data).foldl Wire.step w = w' ∧
      w'.stb = false ∧ w'.out = true ∧ w'.nbits = 0 ∧ w'.acc = 0 ∧
      w'.frame = w.frame ++ [data % 256] ∧ w'.done = w.done :=
  wire_send_byte_loop data 7 0 w rfl hstb hout hn (by rw [hacc]; omega)

/-- One strobe-framed command byte, as the device receives it. -/
theorem wire_send_command (command : Nat) (w : Wire) (hstb : w.stb = true)
    (hout : w.out = true) :
    ∃ w', (tm1628_send_command command).foldl Wire.step w = w' ∧
      w'.stb = true ∧ w'.out = true ∧ w'.done = w.done ++ [[command % 256]] := by
  unfold tm1628_send_command
  simp only [List.foldl_append]
  obtain ⟨w1, h1, h2, h3, h4, h5, h6, h7⟩ := wire_send_byte command
    ((tm1628_delay_us 5).foldl Wire.step ((tm1628_gpio_set_desc Line.stb 0).foldl Wire.step w))
    (by simp [tm1628_gpio_set_desc, tm1628_delay_us, Wire.step, hstb])
    (by simp [tm1628_gpio_set_desc, tm1628_delay_us, Wire.step, hstb, hout])
    (by simp [tm1628_gpio_set_desc, tm1628_delay_us, Wire.step, hstb])
    (by simp [tm1628_gpio_set_desc, tm1628_delay_us, Wire.step, hstb])
  rw [h1]
  have hf : w1.frame = [command % 256] := by
    rw [h6]
    simp [tm1628_gpio_set_desc, tm1628_delay_us, Wire.step, hstb]
  have hd : w1.done = w.done := by
    rw [h7]
    simp [tm1628_gpio_set_desc, tm1628_delay_us, Wire.step, hstb]
  refine ⟨_, rfl, ?_, ?_, ?_⟩ <;>
    simp [tm1628_gpio_set_desc, tm1628_delay_us, Wire.step, h2, h3, hf, hd]

/-- One strobe-framed (address, data) pair, as the device receives it. -/
theorem wire_send_pair (a b : Nat) (w : Wire) (hstb : w.stb = true) (hout : w.out = true) :
    ∃ w', (tm1628_gpio_set_desc Line.stb 0 ++ tm1628_delay_us 5 ++
        tm1628_send_byte a ++ tm1628_send_byte b ++
        tm1628_gpio_set_desc Line.stb 1).foldl Wire.step w = w' ∧
      w'.stb = true ∧ w'.out = true ∧ w'.done = w.done ++ [[a % 256, b % 256]] := by
  simp only [List.foldl_append]
  obtain ⟨w1, h1, h2, h3, h4, h5, h6, h7⟩ := wire_send_byte a
    ((tm1628_delay_us 5).foldl Wire.step ((tm1628_gpio_set_desc Line.stb 0).foldl Wire.step w))
    (by simp [tm1628_gpio_set_desc, tm1628_delay_us, Wire.step, hstb])
    (by simp [tm1628_gpio_set_desc, tm1628_delay_us, Wire.step, hstb, hout])
    (by simp [tm1628_gpio_set_desc, tm1628_delay_us, Wire.step, hstb])
    (by simp [tm1628_gpio_set_desc, tm1628_delay_us, Wire.step, hstb])
  rw [h1]
  obtain ⟨w2, g1, g2, g3, g4, g5, g6, g7⟩ := wire_send_byte b w1 h2 h3 h4 h5
  rw [g1]
  have hf : w2.frame = [a % 256, b % 256] := by
    rw [g6, h6]
    simp [tm1628_gpio_set_desc, tm1628_delay_us, Wire.step, hstb]
  have hd : w2.done = w.done := by
    rw [g7, h7]
    simp [tm1628_gpio_set_desc, tm1628_delay_us, Wire.step, hstb]
  refine ⟨_, rfl, ?_, ?_, ?_⟩ <;>
    simp [tm1628_gpio_set_desc, tm1628_delay_us, Wire.step, g2, g3, hf, hd]

theorem wire_display_bitmap_loop (bitmap : Nat → Nat) :
    ∀ n i address (w : Wire), w.stb = true → w.out = true →
      ∃ w', (tm1628_display_bitmap_loop bitmap n i address).foldl Wire.step w = w' ∧
        w'.stb = true ∧ w'.out = true ∧
        w'.done = w.done ++
          (List.range n).map (fun k => [(address + k) % 256, bitmap (i + k) % 256]) := by
  intro n
  induction n with
  | zero =>
    intro i address w hstb hout
    exact ⟨w, rfl, hstb, hout, by simp⟩
  | succ n ih =>
    intro i address w hstb hout
    unfold tm1628_display_bitmap_loop
    rw [List.foldl_append]
    obtain ⟨w1, h1, h2, h3, h4⟩ := wire_send_pair address (bitmap i) w hstb hout
    rw [h1]
    obtain ⟨w2, g1, g2, g3, g4⟩ := ih (i + 1) ((address + 1) % 256) w1 h2 h3
    refine ⟨w2, g1, g2, g3, ?_⟩
    have key : (List.range (n + 1)).map
          (fun k => [(address + k) % 256, bitmap (i + k) % 256]) =
        [address % 256, bitmap i % 256] ::
          (List.range n).map
            (fun k => [((address + 1) % 256 + k) % 256, bitmap (i + 1 + k) % 256]) := by
      rw [List.range_succ_eq_map, List.map_cons, List.map_map]
      refine congrArg₂ List.cons rfl ?_
      apply List.map_congr_left
      intro k _
      have e1 : ((address + 1) % 256 + k) % 256 = (address + (k + 1)) % 256 := by omega
      have e2 : i + 1 + k = i + (k + 1) := by omega
      show [(address + (k + 1)) % 256, bitmap (i + (k + 1)) % 256] = _
      rw [e1, e2]
    rw [g4, h4, key, List.append_assoc]
    rfl

/-- The transactions that `tm1628_display_bitmap` writes. -/
theorem busFrames_display_bitmap (bitmap : Nat → Nat) :
    busFrames (tm1628_display_bitmap bitmap) =
      (List.range 14).map (fun k => [(0xC0 + k) % 256, bitmap k % 256]) := by
  unfold busFrames tm1628_display_bitmap
  rw [List.foldl_append]
  obtain ⟨w', h1, h2, h3, h4⟩ := wire_display_bitmap_loop bitmap 14 0 0xC0 Wire.idle rfl rfl
  rw [h1]
  simp only [tm1628_delay_us, List.foldl_cons, List.foldl_nil, Wire.step]
  rw [h4]
  simp [Wire.idle]

theorem aset_same {α : Type} (a : Nat → α) (i : Nat) (v : α) : aset a i v i = v := by
  simp [aset]

theorem aset_other {α : Type} (a : Nat → α) (i k : Nat) (v : α) (h : k ≠ i) :
    aset a i v k = a k := by
  simp [aset, h]

theorem hexval_lt (c : Int) (h : isHexChar c) : hexval c < 16 := by
  unfold isHexChar at h
  unfold hexval
  split_ifs <;> omega

theorem toChar_small (sg : Bool) (v : Int) (h0 : 0 ≤ v) (h1 : v < 128) : toChar sg v = v := by
  unfold toChar
  split_ifs <;> omega

theorem toUChar_toChar (sg : Bool) (v : Nat) (h : v < 256) : toUChar (toChar sg v) = v := by
  unfold toUChar toChar
  split_ifs <;> omega

theorem display_raw_store_digit_hex (sg : Bool) (tmp : Nat → Int) (i : Nat)
    (h : isHexChar (tmp i)) :
    display_raw_store_digit sg tmp i = some (aset tmp i (hexval (tmp i) : Int)) := by
  unfold isHexChar at h
  unfold display_raw_store_digit
  by_cases h1 : 48 ≤ tmp i ∧ tmp i ≤ 57
  · have hv : (hexval (tmp i) : Int) = tmp i - 48 := by
      unfold hexval
      rw [if_pos h1.2]
      omega
    rw [if_pos h1, toChar_small sg _ (by omega) (by omega), hv]
  · rw [if_neg h1]
    by_cases h2 : 65 ≤ tmp i ∧ tmp i ≤ 70
    · have hv : (hexval (tmp i) : Int) = tmp i - 65 + 10 := by
        unfold hexval
        rw [if_neg (by omega), if_pos h2.2]
        omega
      rw [if_pos h2, toChar_small sg _ (by omega) (by omega), hv]
    · rw [if_neg h2]
      have h3 : 97 ≤ tmp i ∧ tmp i ≤ 102 := by omega
      have hv : (hexval (tmp i) : Int) = tmp i - 97 + 10 := by
        unfold hexval
        rw [if_neg (by omega), if_neg (by omega)]
        omega
      rw [if_pos h3, toChar_small sg _ (by omega) (by omega), hv]

theorem display_raw_store_digit_bad (sg : Bool) (tmp : Nat → Int) (i : Nat)
    (h : ¬ isHexChar (tmp i)) : display_raw_store_digit sg tmp i = none := by
  unfold isHexChar at h
  unfold display_raw_store_digit
  rw [if_neg (fun h1 => h (Or.inl h1)), if_neg (fun h1 => h (Or.inr (Or.inl h1))),
    if_neg (fun h1 => h (Or.inr (Or.inr h1)))]

/-- A character that is no hexadecimal digit ends the loop with `-EINVAL`. -/
theorem display_raw_store_loop_bad (sg : Bool) (buf : List Int) :
    ∀ n i j tmp bitdata, (∃ p, i ≤ p ∧ p < i + n ∧ ¬ isHexChar (buf.getD p 0)) →
      display_raw_store_loop sg buf n i j tmp bitdata = Except.error (-EINVAL) := by
  intro n
  induction n with
  | zero =>
    rintro i j tmp bitdata ⟨p, h1, h2, _⟩
    omega
  | succ n ih =>
    rintro i j tmp bitdata ⟨p, h1, h2, h3⟩
    unfold display_raw_store_loop
    simp only []
    by_cases hx : isHexChar (buf.getD i 0)
    · rw [display_raw_store_digit_hex sg _ i (by rw [aset_same]; exact hx)]
      have hp : p ≠ i := by
        rintro rfl
        exact h3 hx
      have hex : ∃ p, i + 1 ≤ p ∧ p < i + 1 + n ∧ ¬ isHexChar (buf.getD p 0) :=
        ⟨p, by omega, by omega, h3⟩
      simp only []
      split_ifs
      · exact ih _ _ _ _ hex
      · exact ih _ _ _ _ hex
    · rw [display_raw_store_digit_bad sg _ i (by rw [aset_same]; exact hx)]

theorem nibbles_lor : ∀ a : Nat, a < 16 → ∀ b : Nat, b < 16 →
    Int.lor ((a : Int) <<< (4 : Int)) (b : Int) = ((16 * a + b : Nat) : Int) := by
  decide

/-- Twenty-eight hexadecimal digits fill `bitdata` with the fourteen bytes they spell. -/
theorem display_raw_store_loop_hex (sg : Bool) (buf : List Int) :
    ∀ n i j tmp bitdata, i + n = 28 →
      (∀ p, p < 28 → isHexChar (buf.getD p 0)) →
      j = i / 2 →
      (i % 2 = 1 → tmp (i - 1) = (hexval (buf.getD (i - 1) 0) : Int)) →
      ∃ bitdata', display_raw_store_loop sg buf n i j tmp bitdata = Except.ok bitdata' ∧
        ∀ m, bitdata' m =
          if i / 2 ≤ m ∧ m < 14 then
            toChar sg ((16 * hexval (buf.getD (2 * m) 0) + hexval (buf.getD (2 * m + 1) 0) : Nat) : Int)
          else bitdata m := by
  intro n
  induction n with
  | zero =>
    intro i j tmp bitdata hi _ _ _
    refine ⟨bitdata, rfl, fun m => ?_⟩
    rw [if_neg (by omega)]
  | succ n ih =>
    intro i j tmp bitdata hi hhex hj hprev
    have hx : isHexChar (buf.getD i 0) := hhex i (by omega)
    unfold display_raw_store_loop
    simp only []
    rw [display_raw_store_digit_hex sg _ i (by rw [aset_same]; exact hx)]
    simp only [aset_same]
    by_cases hodd : i &&& 0x1 ≠ 0
    · rw [if_pos hodd]
      rw [Nat.and_one_is_mod] at hodd
      have hodd1 : i % 2 = 1 := by omega
      have hne : i - 1 ≠ i := by omega
      rw [aset_other _ _ _ _ hne, aset_other _ _ _ _ hne, hprev hodd1,
        nibbles_lor _ (hexval_lt _ (hhex (i - 1) (by omega))) _ (hexval_lt _ hx)]
      obtain ⟨bd, h1, h2⟩ := ih (i + 1) (j + 1) (aset (aset tmp i (buf.getD i 0)) i (hexval (buf.getD i 0) : Int))
        (aset bitdata j _) (by omega)
        hhex (by omega) (fun h => by omega)
      refine ⟨bd, h1, fun m => ?_⟩
      rw [h2 m]
      by_cases hm : (i + 1) / 2 ≤ m ∧ m < 14
      · rw [if_pos hm, if_pos (by omega)]
      · rw [if_neg hm]
        by_cases hmj : m = j
        · subst hmj
          rw [aset_same, if_pos (by omega)]
          have e1 : 2 * m = i - 1 := by omega
          have e2 : 2 * m + 1 = i := by omega
          rw [e2, e1]
        · rw [aset_other _ _ _ _ hmj, if_neg (by omega)]
    · rw [if_neg hodd]
      rw [Nat.and_one_is_mod] at hodd
      obtain ⟨bd, h1, h2⟩ := ih (i + 1) j (aset (aset tmp i (buf.getD i 0)) i (hexval (buf.getD i 0) : Int))
        bitdata (by omega)
        hhex (by omega)
        (fun _ => by rw [Nat.add_sub_cancel, aset_same])
      refine ⟨bd, h1, fun m => ?_⟩
      rw [h2 m]
      by_cases hm : (i + 1) / 2 ≤ m ∧ m < 14
      · rw [if_pos hm, if_pos (by omega)]
      · rw [if_neg hm, if_neg (by omega)]

theorem getD_mem_of_lt (buf : List Int) (p : Nat) (h : p < buf.length) :
    buf.getD p 0 ∈ buf := by
  rw [List.getD_eq_getElem buf 0 h]
  exact List.getElem_mem h

/-- C3: an input whose length is not 28, or which holds a character that is no hexadecimal
digit (wherever it stands, the last position included), makes `display_raw_store` return
`-EINVAL` with an empty bus trace: `tm1628_display_bitmap` is not reached and no line is
driven, whatever the signedness of `char` and the previous content of the local arrays. -/
theorem display_raw_store_rejects (sg : Bool) (junk_tmp junk_bitdata : Nat → Int)
    (buf : List Int) (h : buf.length ≠ 28 ∨ ∃ c ∈ buf, ¬ isHexChar c) :
    display_raw_store sg junk_tmp junk_bitdata buf = (-EINVAL, []) := by
  unfold display_raw_store
  by_cases hlen : buf.length = 28
  · have hbad : ∃ c ∈ buf, ¬ isHexChar c := by
      rcases h with h | h
      · exact absurd hlen h
      · exact h
    obtain ⟨c, hc, hnot⟩ := hbad
    obtain ⟨p, hp, hget⟩ := List.getElem_of_mem hc
    have hex : ∃ p, 0 ≤ p ∧ p < 0 + 28 ∧ ¬ isHexChar (buf.getD p 0) :=
      ⟨p, Nat.zero_le p, by omega, by rw [List.getD_eq_getElem buf 0 hp, hget]; exact hnot⟩
    simp only []
    rw [if_neg (by rw [hlen]; decide),
      display_raw_store_loop_bad sg buf 28 0 0 junk_tmp junk_bitdata hex]
  · simp only []
    rw [if_pos (by
      intro h28
      apply hlen
      exact_mod_cast h28)]

/-- Witness for C3: twenty-eight characters of which only the last is no hexadecimal digit. -/
theorem display_raw_store_rejects_witness :
    ((cstr "00112233445566778899aabbccdG").length ≠ 28 ∨
      ∃ c ∈ cstr "00112233445566778899aabbccdG", ¬ isHexChar c) ∧
    display_raw_store true (fun _ => 0x55) (fun _ => 0x55)
      (cstr "00112233445566778899aabbccdG") = (-EINVAL, []) :=
  ⟨Or.inr ⟨71, by decide, by decide⟩,
   display_raw_store_rejects true (fun _ => 0x55) (fun _ => 0x55)
     (cstr "00112233445566778899aabbccdG") (Or.inr ⟨71, by decide, by decide⟩)⟩

/-- C4: for twenty-eight hexadecimal digits `display_raw_store` succeeds (it returns the
count 28) and the device receives exactly fourteen strobe-framed transactions, in the order
`j = 0..13`, each the address `0xC0 + j` followed by the data byte
`16 * hexval buf[2j] + hexval buf[2j+1]`, an unsigned byte, whatever the signedness of `char`
and the previous content of the local arrays. -/
theorem display_raw_store_writes (sg : Bool) (junk_tmp junk_bitdata : Nat → Int)
    (buf : List Int) (hlen : buf.length = 28) (hhex : ∀ c ∈ buf, isHexChar c) :
    (display_raw_store sg junk_tmp junk_bitdata buf).1 = 28 ∧
    busFrames (display_raw_store sg junk_tmp junk_bitdata buf).2 =
      (List.range 14).map (fun j =>
        [0xC0 + j, 16 * hexval (buf.getD (2 * j) 0) + hexval (buf.getD (2 * j + 1) 0)]) ∧
    ∀ j, j < 14 →
      0xC0 + j ≤ 0xCD ∧
      16 * hexval (buf.getD (2 * j) 0) + hexval (buf.getD (2 * j + 1) 0) ≤ 0xFF := by
  have hx : ∀ p, p < 28 → isHexChar (buf.getD p 0) := fun p hp =>
    hhex _ (getD_mem_of_lt buf p (by omega))
  have hbyte : ∀ j, j < 14 →
      16 * hexval (buf.getD (2 * j) 0) + hexval (buf.getD (2 * j + 1) 0) < 256 := by
    intro j hj
    have h1 := hexval_lt _ (hx (2 * j) (by omega))
    have h2 := hexval_lt _ (hx (2 * j + 1) (by omega))
    omega
  obtain ⟨bd, h1, h2⟩ := display_raw_store_loop_hex sg buf 28 0 0 junk_tmp junk_bitdata rfl
    hx rfl (fun h => by omega)
  have hres : display_raw_store sg junk_tmp junk_bitdata buf =
      (28, tm1628_display_bitmap (fun k => toUChar (bd k))) := by
    unfold display_raw_store
    simp only []
    rw [if_neg (by rw [hlen]; decide), h1, hlen]
    rfl
  rw [hres]
  refine ⟨rfl, ?_, fun j hj => ⟨by omega, by have := hbyte j hj; omega⟩⟩
  show busFrames (tm1628_display_bitmap (fun k => toUChar (bd k))) = _
  rw [busFrames_display_bitmap]
  apply List.map_congr_left
  intro j hj
  have hj14 : j < 14 := List.mem_range.mp hj
  rw [h2 j, if_pos ⟨Nat.zero_le _, hj14⟩, toUChar_toChar sg _ (hbyte j hj14),
    Nat.mod_eq_of_lt (hbyte j hj14), Nat.mod_eq_of_lt (by omega)]

/-- Witness for C4: digits of both cases, with data bytes above `0x7F`. -/
theorem display_raw_store_writes_witness :
    (cstr "0123456789abcdefABCDEF00ff80").length = 28 ∧
    (∀ c ∈ cstr "0123456789abcdefABCDEF00ff80", isHexChar c) ∧
    (display_raw_store true (fun _ => 0x55) (fun _ => 0x55)
      (cstr "0123456789abcdefABCDEF00ff80")).1 = 28 ∧
    busFrames (display_raw_store true (fun _ => 0x55) (fun _ => 0x55)
      (cstr "0123456789abcdefABCDEF00ff80")).2 =
      (List.range 14).map (fun j =>
        [0xC0 + j, 16 * hexval ((cstr "0123456789abcdefABCDEF00ff80").getD (2 * j) 0) +
          hexval ((cstr "0123456789abcdefABCDEF00ff80").getD (2 * j + 1) 0)]) ∧
    ∀ j, j < 14 →
      0xC0 + j ≤ 0xCD ∧
      16 * hexval ((cstr "0123456789abcdefABCDEF00ff80").getD (2 * j) 0) +
        hexval ((cstr "0123456789abcdefABCDEF00ff80").getD (2 * j + 1) 0) ≤ 0xFF :=
  ⟨by decide, by decide,
   display_raw_store_writes true (fun _ => 0x55) (fun _ => 0x55)
     (cstr "0123456789abcdefABCDEF00ff80") (by decide) (by decide)⟩

/-- The transactions that `tm1628_send_command` writes: one, of one byte. -/
theorem busFrames_send_command (command : Nat) :
    busFrames (tm1628_send_command command) = [[command % 256]] := by
  unfold busFrames
  obtain ⟨w', h1, _, _, h4⟩ := wire_send_command command Wire.idle rfl rfl
  rw [h1, h4]
  rfl

theorem brightness_cmd : ∀ l, l < 16 → (0x80 ||| (l &&& 0x0F)) % 256 = 0x80 ||| l := by
  decide

/-- C5: when `kstrtoul` parses the written text as the number `v`, `brightness_store` leaves
`min v 15` in `current_brightness`, a value in `[0, 15]` however large `v` is, returns the
count, and the device receives a single transaction of the single command byte
`0x80 | min v 15`. -/
theorem brightness_store_clamps (bitsPerLong : Nat) (buf : List Int) (d : Driver) (v : Nat)
    (h : kstrtoul bitsPerLong buf = Except.ok v) :
    (brightness_store bitsPerLong buf d).1 = buf.length ∧
    (brightness_store bitsPerLong buf d).2.1.current_brightness = (min v 15 : Nat) ∧
    0 ≤ (brightness_store bitsPerLong buf d).2.1.current_brightness ∧
    (brightness_store bitsPerLong buf d).2.1.current_brightness ≤ 15 ∧
    busFrames (brightness_store bitsPerLong buf d).2.2 = [[0x80 ||| min v 15]] := by
  have hval : (if v > 15 then 15 else v) = min v 15 := by
    split_ifs <;> omega
  have hlt : min v 15 < 16 := by omega
  have hint : toInt32 (min v 15) = (min v 15 : Nat) := by
    unfold toInt32
    norm_num
    omega
  have hres : brightness_store bitsPerLong buf d =
      ((buf.length : Int), { d with current_brightness := (min v 15 : Nat) },
        tm1628_set_brightness (min v 15)) := by
    have hu : toUChar ((min v 15 : Nat) : Int) = min v 15 := by
      unfold toUChar
      omega
    unfold brightness_store
    simp only [h, hval, hint, hu]
  rw [hres]
  refine ⟨rfl, rfl, ?_, ?_, ?_⟩
  · show (0 : Int) ≤ (min v 15 : Nat)
    omega
  · show ((min v 15 : Nat) : Int) ≤ 15
    omega
  · show busFrames (tm1628_send_command (0x80 ||| (min v 15 &&& 0x0F))) = _
    rw [busFrames_send_command, brightness_cmd _ hlt]

/-- Witness for C5: a value beyond the range of `int`, written with its newline. -/
theorem brightness_store_clamps_witness :
    kstrtoul 64 (cstr "99999999999\n") = Except.ok 99999999999 ∧
    (brightness_store 64 (cstr "99999999999\n") Driver.init).1 =
      (cstr "99999999999\n").length ∧
    (brightness_store 64 (cstr "99999999999\n") Driver.init).2.1.current_brightness =
      (min 99999999999 15 : Nat) ∧
    0 ≤ (brightness_store 64 (cstr "99999999999\n") Driver.init).2.1.current_brightness ∧
    (brightness_store 64 (cstr "99999999999\n") Driver.init).2.1.current_brightness ≤ 15 ∧
    busFrames (brightness_store 64 (cstr "99999999999\n") Driver.init).2.2 =
      [[0x80 ||| min 99999999999 15]] :=
  ⟨rfl, brightness_store_clamps 64 (cstr "99999999999\n") Driver.init 99999999999 rfl⟩

theorem ctext_cons (c : Int) (s : List Int) :
    ctext (c :: s) = if c ≠ 0 then c :: ctext s else [] := by
  unfold ctext
  by_cases h : c = 0 <;> simp [List.takeWhile_cons, h]

theorem ctext_nil : ctext [] = [] := rfl

theorem sysfs_streq_nil_right (s : List Int) :
    sysfs_streq s [] = true ↔ ctext s = [] ∨ ctext s = [10] := by
  have hu : sysfs_streq s [] = sysfs_streq_tail s [] := by
    cases s <;> rfl
  rw [hu]
  unfold sysfs_streq_tail
  rcases s with _ | ⟨a, _ | ⟨b, t⟩⟩
  · simp [ctext_nil]
  · by_cases ha : a = 0
    · subst ha; simp [ctext_cons, ctext_nil]
    · by_cases ha10 : a = 10
      · subst ha10; simp [ctext_cons, ctext_nil]
      · simp [ctext_cons, ctext_nil, ha, ha10]
  · by_cases ha : a = 0
    · subst ha; simp [ctext_cons]
    · by_cases ha10 : a = 10
      · subst ha10
        by_cases hb : b = 0
        · subst hb; simp [ctext_cons]
        · simp [ctext_cons, hb]
      · simp [ctext_cons, ha, ha10]

/-- Comparison by `sysfs_streq` against a name without NUL or newline: the text is the name, or the name
followed by one newline. -/
theorem sysfs_streq_iff (x : List Int) (hx : ∀ c ∈ x, c ≠ 0 ∧ c ≠ 10) :
    ∀ s, sysfs_streq s x = true ↔ ctext s = x ∨ ctext s = x ++ [10] := by
  induction x with
  | nil => exact fun s => sysfs_streq_nil_right s
  | cons c2 x ih =>
    have hc2 := hx c2 (List.mem_cons_self _ _)
    have ih' := ih (fun c hc => hx c (List.mem_cons_of_mem _ hc))
    intro s
    cases s with
    | nil =>
      have hu : sysfs_streq [] (c2 :: x) = sysfs_streq_tail [] (c2 :: x) := rfl
      rw [hu]
      unfold sysfs_streq_tail
      simp [ctext_nil, hc2.1, hc2.2, Ne.symm hc2.1]
    | cons c1 s =>
      unfold sysfs_streq
      by_cases h : c1 ≠ 0 ∧ c1 = c2
      · rw [if_pos h, ih' s, ctext_cons, if_pos h.1, h.2]
        simp
      · rw [if_neg h]
        have hne : c1 ≠ c2 := by
          intro heq
          exact h ⟨by rw [heq]; exact hc2.1, heq⟩
        unfold sysfs_streq_tail
        rw [ctext_cons]
        by_cases h0 : c1 = 0
        · subst h0
          simp [hc2.1, hc2.2, Ne.symm hc2.1]
        · simp [h0, hne, hc2.1, hc2.2]

theorem modeNames_clean : ∀ x ∈ modeNames, ∀ c ∈ x, c ≠ 0 ∧ c ≠ 10 := by
  decide

set_option maxRecDepth 100000 in
/-- C6 fails as stated: the text `5x12` followed by a newline is none of the four names, yet
`displaymode_config_store` accepts it, changes `mode_cmd` from `0x02` to `0x01` and sends the
initialisation commands. -/
theorem displaymode_config_store_counterexample :
    cstr "5x12\n" ∉ modeNames ∧
    Driver.init.mode_cmd = 0x02 ∧
    (displaymode_config_store (cstr "5x12\n") Driver.init).1 = 5 ∧
    (displaymode_config_store (cstr "5x12\n") Driver.init).2.1.mode_cmd = 0x01 ∧
    busFrames (displaymode_config_store (cstr "5x12\n") Driver.init).2.2 =
      [[0x01], [0x40], [0x8A]] := by
  decide

/-- C6, amended: a written text (what precedes the first NUL) that is neither a valid mode
name nor a valid mode name followed by one newline makes `displaymode_config_store` return
`-EINVAL`, leave the state unchanged and drive no line; and for each of the four valid names,
written with or without the newline, the store succeeds and `displaymode_config_show` then
prints that name followed by a newline. -/
theorem displaymode_config_round_trip (d : Driver) (buf : List Int)
    (h : ∀ x ∈ modeNames, ctext buf ≠ x ∧ ctext buf ≠ x ++ cstr "\n") :
    displaymode_config_store buf d = (-EINVAL, d, []) ∧
    ∀ x ∈ modeNames, ∀ w ∈ [x, x ++ cstr "\n"],
      (displaymode_config_store w d).1 = w.length ∧
      displaymode_config_show (displaymode_config_store w d).2.1 = x ++ cstr "\n" := by
  constructor
  · have hf : ∀ x ∈ modeNames, sysfs_streq buf x = false := by
      intro x hx
      rw [Bool.eq_false_iff]
      intro ht
      rcases (sysfs_streq_iff x (modeNames_clean x hx) buf).mp ht with e | e
      · exact (h x hx).1 e
      · exact (h x hx).2 e
    have h1 := hf (cstr "4x13") (by decide)
    have h2 := hf (cstr "5x12") (by decide)
    have h3 := hf (cstr "6x11") (by decide)
    have h4 := hf (cstr "7x10") (by decide)
    unfold displaymode_config_store
    simp only [h1, h2, h3, h4]
    rfl
  · intro x hx w hw
    have hx' : x = cstr "4x13" ∨ x = cstr "5x12" ∨ x = cstr "6x11" ∨ x = cstr "7x10" := by
      simpa [modeNames] using hx
    have hw' : w = x ∨ w = x ++ cstr "\n" := by
      simpa using hw
    rcases hx' with rfl | rfl | rfl | rfl <;> rcases hw' with rfl | rfl <;>
      exact ⟨rfl, rfl⟩

/-- Witness for C6 (amended): an unknown mode name is refused. -/
theorem displaymode_config_round_trip_witness :
    (∀ x ∈ modeNames, ctext (cstr "8x8\n") ≠ x ∧ ctext (cstr "8x8\n") ≠ x ++ cstr "\n") ∧
    displaymode_config_store (cstr "8x8\n") Driver.init = (-EINVAL, Driver.init, []) ∧
    ∀ x ∈ modeNames, ∀ w ∈ [x, x ++ cstr "\n"],
      (displaymode_config_store w Driver.init).1 = w.length ∧
      displaymode_config_show (displaymode_config_store w Driver.init).2.1 = x ++ cstr "\n" :=
  ⟨by decide, displaymode_config_round_trip Driver.init (cstr "8x8\n") (by decide)⟩

theorem and_bit_ne_zero (x b : Nat) : x &&& (1 <<< b) ≠ 0 ↔ x.testBit b = true := by
  rw [Nat.one_shiftLeft, Nat.and_two_pow]
  cases x.testBit b <;> simp

theorem get_pressed_key_driver_loop_find (key_data : List Nat) :
    ∀ n i, i + n = key_map.length →
      get_pressed_key_driver_loop key_data n i =
        match (key_map.drop i).find? (pressed key_data) with
        | some e => e.key
        | none => 0 := by
  intro n
  induction n with
  | zero =>
    intro i hi
    rw [List.drop_eq_nil_of_le (by omega)]
    rfl
  | succ n ih =>
    intro i hi
    have hlt : i < key_map.length := by omega
    unfold get_pressed_key_driver_loop
    rw [List.drop_eq_getElem_cons hlt, List.getD_eq_getElem key_map _ hlt, List.find?_cons]
    simp only []
    by_cases hp : pressed key_data key_map[i] = true
    · rw [if_pos ((and_bit_ne_zero _ _).mpr hp), hp]
    · rw [if_neg (fun h => hp ((and_bit_ne_zero _ _).mp h))]
      have hp' : pressed key_data key_map[i] = false := by simpa using hp
      rw [hp']
      exact ih (i + 1) (by omega)

theorem find?_agree {α : Type} (p q : α → Bool) :
    ∀ l : List α, (∀ a ∈ l, p a = q a) → l.find? p = l.find? q := by
  intro l
  induction l with
  | nil => intro _; rfl
  | cons a l ih =>
    intro h
    rw [List.find?_cons, List.find?_cons, h a (List.mem_cons_self _ _),
      ih (fun b hb => h b (List.mem_cons_of_mem _ hb))]

theorem key_map_keys_ne_zero : ∀ e ∈ key_map, e.key ≠ 0 := by
  decide

/-- C9: for every 5-byte scan, `get_pressed_key_driver` returns the key of the first
`key_map` entry, in table order, whose bit is set in its scan byte; it returns `'\0'` if and
only if none of the ten mapped positions is set; and two scans that agree on the ten mapped
positions give the same result, whatever their other bits. -/
theorem get_pressed_key_driver_first_match (key_data : List Nat)
    (_hlen : key_data.length = 5) :
    get_pressed_key_driver key_data =
      (match key_map.find? (pressed key_data) with
       | some e => e.key
       | none => 0) ∧
    (get_pressed_key_driver key_data = 0 ↔ ∀ e ∈ key_map, pressed key_data e = false) ∧
    ∀ key_data' : List Nat, key_data'.length = 5 →
      (∀ e ∈ key_map, pressed key_data' e = pressed key_data e) →
      get_pressed_key_driver key_data' = get_pressed_key_driver key_data := by
  have hfind : ∀ kd : List Nat, get_pressed_key_driver kd =
      (match key_map.find? (pressed kd) with
       | some e => e.key
       | none => 0) := fun kd => get_pressed_key_driver_loop_find kd 10 0 rfl
  refine ⟨hfind key_data, ?_, ?_⟩
  · rw [hfind key_data]
    cases hf : key_map.find? (pressed key_data) with
    | none =>
      simp only []
      refine ⟨fun _ => ?_, fun _ => trivial⟩
      intro e he
      have := List.find?_eq_none.mp hf e he
      simpa using this
    | some e =>
      simp only []
      have hmem : e ∈ key_map := List.mem_of_find?_eq_some hf
      have hpe : pressed key_data e = true := List.find?_some hf
      refine ⟨fun h0 => absurd h0 (key_map_keys_ne_zero e hmem), fun hall => ?_⟩
      rw [hall e hmem] at hpe
      exact absurd hpe (by decide)
  · intro kd' _ hagree
    rw [hfind kd', hfind key_data, find?_agree _ _ key_map hagree]

/-- Witness for C9: keys `4` and `3` and `9` held together, with stray bits in the unmapped
positions; the first table match, `4`, is reported. -/
theorem get_pressed_key_driver_first_match_witness :
    ([0x1C, 0x04, 0x01, 0xFF, 0xFF] : List Nat).length = 5 ∧
    get_pressed_key_driver [0x1C, 0x04, 0x01, 0xFF, 0xFF] = 52 ∧
    get_pressed_key_driver [0x1C, 0x04, 0x01, 0xFF, 0xFF] =
      (match key_map.find? (pressed [0x1C, 0x04, 0x01, 0xFF, 0xFF]) with
       | some e => e.key
       | none => 0) ∧
    (get_pressed_key_driver [0x1C, 0x04, 0x01, 0xFF, 0xFF] = 0 ↔
      ∀ e ∈ key_map, pressed [0x1C, 0x04, 0x01, 0xFF, 0xFF] e = false) ∧
    ∀ key_data' : List Nat, key_data'.length = 5 →
      (∀ e ∈ key_map, pressed key_data' e = pressed [0x1C, 0x04, 0x01, 0xFF, 0xFF] e) →
      get_pressed_key_driver key_data' = get_pressed_key_driver [0x1C, 0x04, 0x01, 0xFF, 0xFF] :=
  ⟨rfl, by decide, get_pressed_key_driver_first_match [0x1C, 0x04, 0x01, 0xFF, 0xFF] rfl⟩

theorem set_at_length (ks : List Int) (a v : Int) (rest : List Int) :
    (ks ++ a :: rest).set ks.length v = ks ++ v :: rest := by
  induction ks with
  | nil => rfl
  | cons k ks ih =>
    show k :: (ks ++ a :: rest).set ks.length v = k :: (ks ++ v :: rest)
    rw [ih]

theorem take_at_length (ks l : List Int) (n : Nat) :
    (ks ++ l).take (ks.length + n) = ks ++ l.take n := by
  induction ks with
  | nil => simp
  | cons k ks ih =>
    show (k :: (ks ++ l)).take (ks.length + 1 + n) = k :: (ks ++ l.take n)
    have e : ks.length + 1 + n = (ks.length + n) + 1 := by omega
    rw [e, List.take_succ_cons, ih]

theorem drop_at_length (ks l : List Int) : (ks ++ l).drop ks.length = l := by
  induction ks with
  | nil => rfl
  | cons k ks ih =>
    show (k :: (ks ++ l)).drop (ks.length + 1) = l
    rw [List.drop_succ_cons, ih]

theorem get_at_length (ks : List Int) (a : Int) (rest : List Int) :
    (ks ++ a :: rest)[ks.length]? = some a := by
  induction ks with
  | nil => simp
  | cons k ks ih =>
    show (k :: (ks ++ a :: rest))[ks.length + 1]? = some a
    rw [List.getElem?_cons_succ, ih]

theorem queueHolds_init : QueueHolds Driver.init [] :=
  ⟨List.replicate 63 0, rfl, rfl, rfl⟩

theorem queueHolds_queued (d : Driver) (ks : List Int) (h : QueueHolds d ks) :
    queued d = ks ∧ d.key_buffer_index_global = ks.length := by
  obtain ⟨rest, hb, _, hi⟩ := h
  refine ⟨?_, hi⟩
  unfold queued
  rw [hb, hi, Int.toNat_ofNat]
  simp

theorem queueHolds_inv (d : Driver) (ks : List Int) (h : QueueHolds d ks) : QueueInv d := by
  obtain ⟨rest, hb, hl, hi⟩ := h
  have hlen : d.key_buffer_global.length = KEY_BUFFER_SIZE := by
    rw [hb, List.length_append, List.length_cons]
    omega
  have hk : KEY_BUFFER_SIZE = 64 := rfl
  refine ⟨hlen, by rw [hi]; omega, by rw [hi, hk]; push_cast; omega, ?_⟩
  unfold bufGet
  rw [if_pos ⟨by rw [hi]; omega, by rw [hi, hlen]; omega⟩, hi, Int.toNat_ofNat, hb,
    get_at_length]

/-- Appending a key to a queue that is not full. -/
theorem thread_append_holds (d : Driver) (ks : List Int) (key : Int) (h : QueueHolds d ks)
    (hkey : key ≠ 0) (hroom : ks.length < KEY_BUFFER_SIZE - 1) :
    ∃ d', thread_append key d = some d' ∧ QueueHolds d' (ks ++ [key]) := by
  obtain ⟨rest, hb, hl, hi⟩ := h
  have hk : KEY_BUFFER_SIZE = 64 := rfl
  rw [hk] at hl hroom
  obtain ⟨r, rest', rfl⟩ : ∃ r rest', rest = r :: rest' := by
    cases rest with
    | nil => simp at hl; omega
    | cons r rest' => exact ⟨r, rest', rfl⟩
  simp only [List.length_cons] at hl
  have hlen : (ks ++ 0 :: r :: rest').length = 64 := by
    simp only [List.length_append, List.length_cons]
    omega
  have hlen2 : (ks ++ key :: r :: rest').length = 64 := by
    simp only [List.length_append, List.length_cons]
    omega
  have h1 : bufSet d.key_buffer_global d.key_buffer_index_global key =
      some (ks ++ key :: r :: rest') := by
    unfold bufSet
    rw [hb, hi, if_pos ⟨by omega, by rw [hlen]; push_cast; omega⟩, Int.toNat_ofNat,
      set_at_length]
  have h2 : bufSet (ks ++ key :: r :: rest') (d.key_buffer_index_global + 1) 0 =
      some ((ks ++ [key]) ++ 0 :: rest') := by
    unfold bufSet
    have e : ((ks.length : Int) + 1).toNat = (ks ++ [key]).length := by
      simp only [List.length_append, List.length_singleton]
      omega
    have e2 : ks ++ key :: r :: rest' = (ks ++ [key]) ++ r :: rest' := by simp
    rw [hi, if_pos ⟨by omega, by rw [hlen2]; push_cast; omega⟩, e, e2, set_at_length]
  unfold thread_append
  rw [if_pos hkey, if_pos (by rw [hi, hk]; push_cast; omega)]
  simp only [h1, h2]
  refine ⟨_, rfl, rest', rfl, ?_, ?_⟩
  · simp only [List.length_append, List.length_singleton, hk]
    omega
  · show d.key_buffer_index_global + 1 = ((ks ++ [key]).length : Int)
    rw [hi]
    simp

/-- Appending to a full queue changes nothing. -/
theorem thread_append_full (d : Driver) (key : Int)
    (h : (KEY_BUFFER_SIZE : Int) - 1 ≤ d.key_buffer_index_global) :
    thread_append key d = some d := by
  unfold thread_append
  by_cases hkey : key ≠ 0
  · rw [if_pos hkey, if_neg (by omega)]
  · rw [if_neg hkey]

/-- Popping from a queue that is not empty. -/
theorem keys_show_holds (d : Driver) (k : Int) (ks : List Int) (h : QueueHolds d (k :: ks)) :
    ∃ d', keys_show d = some ([k, 10], d') ∧ QueueHolds d' ks := by
  obtain ⟨rest, hb, hl, hi⟩ := h
  have hk : KEY_BUFFER_SIZE = 64 := rfl
  rw [hk] at hl
  simp only [List.length_cons] at hl hi
  have hlen : d.key_buffer_global.length = 64 := by
    rw [hb]
    simp only [List.length_append, List.length_cons]
    omega
  have h1 : bufGet d.key_buffer_global 0 = some k := by
    unfold bufGet
    rw [if_pos ⟨by omega, by rw [hlen]; decide⟩, hb]
    simp
  have hn : d.key_buffer_index_global.toNat = ks.length + 1 := by
    rw [hi]
    omega
  have h2 : memmove d.key_buffer_global 0 1 d.key_buffer_index_global =
      some (ks ++ 0 :: 0 :: rest) := by
    unfold memmove
    rw [if_pos ⟨by omega, by omega, by omega⟩, hn, hb]
    have e1 : ((k :: ks ++ 0 :: rest).drop 1).take (ks.length + 1) = ks ++ [0] := by
      show (ks ++ 0 :: rest).take (ks.length + 1) = ks ++ [0]
      rw [take_at_length]
      rfl
    have e2 : (k :: ks ++ 0 :: rest).drop (0 + (ks.length + 1)) = 0 :: rest := by
      rw [Nat.zero_add]
      exact drop_at_length (k :: ks) (0 :: rest)
    rw [e1, e2]
    simp
  unfold keys_show
  rw [if_pos (by omega)]
  simp only [h1, h2]
  refine ⟨_, rfl, 0 :: rest, rfl, ?_, ?_⟩
  · simp only [List.length_cons, hk]
    omega
  · show d.key_buffer_index_global - 1 = (ks.length : Int)
    omega

/-- Popping from the empty queue prints the `0` line and changes nothing. -/
theorem keys_show_empty (d : Driver) (h : d.key_buffer_index_global = 0) :
    keys_show d = some (cstr "0\n", d) := by
  unfold keys_show
  rw [if_neg (by omega)]

theorem appendMany_holds (keys : List Int) :
    ∀ (d : Driver) (ks : List Int), QueueHolds d ks → (∀ k ∈ keys, k ≠ 0) →
      ks.length + keys.length ≤ KEY_BUFFER_SIZE - 1 →
      ∃ d', appendMany keys d = some d' ∧ QueueHolds d' (ks ++ keys) := by
  induction keys with
  | nil =>
    intro d ks h _ _
    exact ⟨d, rfl, by rw [List.append_nil]; exact h⟩
  | cons key keys ih =>
    intro d ks h hk hroom
    simp only [List.length_cons] at hroom
    obtain ⟨d1, h1, h2⟩ := thread_append_holds d ks key h (hk key (List.mem_cons_self _ _))
      (by omega)
    obtain ⟨d2, g1, g2⟩ := ih d1 (ks ++ [key]) h2
      (fun k hk' => hk k (List.mem_cons_of_mem _ hk'))
      (by simp only [List.length_append, List.length_singleton]; omega)
    refine ⟨d2, ?_, ?_⟩
    · unfold appendMany
      simp only [h1]
      exact g1
    · rw [List.append_assoc] at g2
      exact g2

theorem popMany_holds :
    ∀ (j : Nat) (d : Driver) (ks : List Int), QueueHolds d ks → j ≤ ks.length →
      ∃ d', popMany j d = some ((ks.take j).map (fun k => [k, 10]), d') ∧
        QueueHolds d' (ks.drop j) := by
  intro j
  induction j with
  | zero =>
    intro d ks h _
    exact ⟨d, rfl, h⟩
  | succ j ih =>
    intro d ks h hj
    cases ks with
    | nil => simp at hj
    | cons k ks =>
      simp only [List.length_cons] at hj
      obtain ⟨d1, h1, h2⟩ := keys_show_holds d k ks h
      obtain ⟨d2, g1, g2⟩ := ih d1 ks h2 (by omega)
      refine ⟨d2, ?_, g2⟩
      unfold popMany
      simp only [h1, g1]
      rfl

/-- What `tm1628_display_grids` does with the string `0.0.0.0.0.0`. -/
theorem display_grids_zeros (junk : Nat → Nat) :
    tm1628_display_grids junk (cstr "0.0.0.0.0.0") =
      some (tm1628_display_pattern [0xBF, 0xBF, 0xBF, 0xBF, 0xBF, 0x3F]) := by
  have hpat : (List.range 6).map
      (fun k => ((nonDotChars (cstr "0.0.0.0.0.0")).map dotted).getD k 0) =
      [0xBF, 0xBF, 0xBF, 0xBF, 0xBF, 0x3F] := by
    decide
  unfold tm1628_display_grids
  rw [display_grids_pattern_eq junk _ (by decide), hpat]
  rfl

set_option maxRecDepth 100000 in
theorem busFrames_zeros :
    busFrames (tm1628_display_pattern [0xBF, 0xBF, 0xBF, 0xBF, 0xBF, 0x3F]) =
      [[0xC0, 0xBF], [0xC2, 0xBF], [0xC4, 0xBF], [0xC6, 0xBF], [0xC8, 0xBF], [0xCA, 0x3F]] := by
  decide

theorem keys_store_clear_eq (junk : Nat → Nat) (buf : List Int) (d : Driver)
    (h : sysfs_streq buf (cstr "clear") = true) :
    keys_store junk buf d =
      some ((buf.length : Int),
        { d with key_buffer_global := List.replicate KEY_BUFFER_SIZE 0
                 key_buffer_index_global := 0 },
        tm1628_display_pattern [0xBF, 0xBF, 0xBF, 0xBF, 0xBF, 0x3F]) := by
  unfold keys_store
  simp only [h, display_grids_zeros, if_true]

theorem clearText_streq (newline : Bool) :
    sysfs_streq (clearText newline) (cstr "clear") = true := by
  cases newline <;> decide

/-- C7: keys appended by the polling loop to the empty queue, at most `KEY_BUFFER_SIZE - 1`
of them, are all stored; for every `j` up to their number, `j` successive `keys_show` calls
print the first `j` keys in append order, one per line, and leave exactly the remaining keys
queued, in order; after all are popped the index is 0 and a further `keys_show` prints the
empty-queue line `0` and changes nothing; and `keys_show` directly after a `clear`, from any
state, prints that empty-queue line as well. -/
theorem key_queue_fifo (keys : List Int) (hkeys : ∀ k ∈ keys, k ≠ 0)
    (hn : keys.length ≤ KEY_BUFFER_SIZE - 1) :
    ∃ d, appendMany keys Driver.init = some d ∧ queued d = keys ∧
      (∀ j, j ≤ keys.length →
        ∃ dj, popMany j d = some ((keys.take j).map (fun k => [k, 10]), dj) ∧
          queued dj = keys.drop j ∧
          dj.key_buffer_index_global = ((keys.length - j : Nat) : Int)) ∧
      (∃ dn, popMany keys.length d = some (keys.map (fun k => [k, 10]), dn) ∧
        queued dn = [] ∧ dn.key_buffer_index_global = 0 ∧
        keys_show dn = some (cstr "0\n", dn)) ∧
      ∀ (junk : Nat → Nat) (newline : Bool) (d0 : Driver),
        ∃ r, keys_store junk (clearText newline) d0 = some r ∧
          keys_show r.2.1 = some (cstr "0\n", r.2.1) := by
  obtain ⟨d, h1, h2⟩ := appendMany_holds keys Driver.init [] queueHolds_init hkeys
    (by simpa using hn)
  rw [List.nil_append] at h2
  refine ⟨d, h1, (queueHolds_queued d keys h2).1, ?_, ?_, ?_⟩
  · intro j hj
    obtain ⟨dj, g1, g2⟩ := popMany_holds j d keys h2 hj
    have g3 := queueHolds_queued dj _ g2
    refine ⟨dj, g1, g3.1, ?_⟩
    rw [g3.2, List.length_drop]
  · obtain ⟨dn, g1, g2⟩ := popMany_holds keys.length d keys h2 (Nat.le_refl _)
    rw [List.take_length] at g1
    rw [List.drop_length] at g2
    have g3 := queueHolds_queued dn _ g2
    exact ⟨dn, g1, g3.1, g3.2, keys_show_empty dn g3.2⟩
  · intro junk newline d0
    refine ⟨_, keys_store_clear_eq junk _ d0 (clearText_streq newline), ?_⟩
    exact keys_show_empty _ rfl

/-- Witness for C7: the keys `1`, `2` are appended; the pops print `1`, `2`, then the
empty-queue line. -/
theorem key_queue_fifo_witness :
    ((appendMany (cstr "12") Driver.init).bind (popMany 3)).map (fun r => r.1) =
      some [cstr "1\n", cstr "2\n", cstr "0\n"] ∧
    ∃ d, appendMany (cstr "12") Driver.init = some d ∧ queued d = cstr "12" ∧
      (∀ j, j ≤ (cstr "12").length →
        ∃ dj, popMany j d = some (((cstr "12").take j).map (fun k => [k, 10]), dj) ∧
          queued dj = (cstr "12").drop j ∧
          dj.key_buffer_index_global = (((cstr "12").length - j : Nat) : Int)) ∧
      (∃ dn, popMany (cstr "12").length d = some ((cstr "12").map (fun k => [k, 10]), dn) ∧
        queued dn = [] ∧ dn.key_buffer_index_global = 0 ∧
        keys_show dn = some (cstr "0\n", dn)) ∧
      ∀ (junk : Nat → Nat) (newline : Bool) (d0 : Driver),
        ∃ r, keys_store junk (clearText newline) d0 = some r ∧
          keys_show r.2.1 = some (cstr "0\n", r.2.1) :=
  ⟨by decide, key_queue_fifo (cstr "12") (by decide) (by decide)⟩

theorem queueOp_holds (op : QueueOp) (d : Driver) (ks : List Int) (h : QueueHolds d ks) :
    ∃ d' ks', op.run d = some d' ∧ QueueHolds d' ks' := by
  cases op with
  | scan key_data =>
    show ∃ d' ks', thread_append (get_pressed_key_driver key_data) d = some d' ∧ _
    by_cases hkey : get_pressed_key_driver key_data ≠ 0
    · by_cases hroom : ks.length < KEY_BUFFER_SIZE - 1
      · obtain ⟨d', h1, h2⟩ := thread_append_holds d ks _ h hkey hroom
        exact ⟨d', _, h1, h2⟩
      · refine ⟨d, ks, thread_append_full d _ ?_, h⟩
        rw [(queueHolds_queued d ks h).2]
        have hk : KEY_BUFFER_SIZE = 64 := rfl
        rw [hk] at hroom ⊢
        omega
    · refine ⟨d, ks, ?_, h⟩
      unfold thread_append
      rw [if_neg hkey]
  | pop =>
    cases ks with
    | nil =>
      refine ⟨d, [], ?_, h⟩
      show (keys_show d).map (fun r => r.2) = some d
      rw [keys_show_empty d (queueHolds_queued d [] h).2]
      rfl
    | cons k ks =>
      obtain ⟨d', h1, h2⟩ := keys_show_holds d k ks h
      refine ⟨d', ks, ?_, h2⟩
      show (keys_show d).map (fun r => r.2) = some d'
      rw [h1]
      rfl
  | clear junk newline =>
    refine ⟨{ d with key_buffer_global := List.replicate KEY_BUFFER_SIZE 0
                     key_buffer_index_global := 0 }, [], ?_,
      ⟨List.replicate 63 0, rfl, rfl, rfl⟩⟩
    show (keys_store junk (clearText newline) d).map (fun r => r.2.1) = _
    rw [keys_store_clear_eq junk _ d (clearText_streq newline)]
    rfl

theorem runOps_holds (ops : List QueueOp) :
    ∀ (d : Driver) (ks : List Int), QueueHolds d ks →
      ∃ d' ks', runOps ops d = some d' ∧ QueueHolds d' ks' := by
  induction ops with
  | nil => exact fun d ks h => ⟨d, ks, rfl, h⟩
  | cons op ops ih =>
    intro d ks h
    obtain ⟨d1, ks1, h1, h2⟩ := queueOp_holds op d ks h
    obtain ⟨d2, ks2, g1, g2⟩ := ih d1 ks1 h2
    refine ⟨d2, ks2, ?_, g2⟩
    unfold runOps
    simp only [h1]
    exact g1

/-- C8: from the initial state, every sequence of polling-loop scans, `keys_show` reads and
`clear` writes runs without an access outside `key_buffer_global` and ends in a state where
the array has its 64 elements, `0 <= key_buffer_index_global <= KEY_BUFFER_SIZE - 1` and
`key_buffer_global[key_buffer_index_global]` is NUL; and a scan made while the index is
`KEY_BUFFER_SIZE - 1` (queue full) leaves the whole state, buffer and index, unchanged. -/
theorem key_queue_bounded (ops : List QueueOp) :
    (∃ d, runOps ops Driver.init = some d ∧ QueueInv d) ∧
    ∀ (d : Driver) (key_data : List Nat),
      d.key_buffer_index_global = (KEY_BUFFER_SIZE : Int) - 1 →
      thread_key_block key_data d = some d := by
  constructor
  · obtain ⟨d, ks, h1, h2⟩ := runOps_holds ops Driver.init [] queueHolds_init
    exact ⟨d, h1, queueHolds_inv d ks h2⟩
  · intro d key_data hfull
    exact thread_append_full d _ (by rw [hfull])

set_option maxRecDepth 100000 in
/-- C10 fails as stated: after `clear` the six grids are written with the digit `0`, with
the decimal point on grids 0 to 4, not with the blank byte `0x00`. -/
theorem keys_store_clear_not_blank :
    (keys_store (fun _ => 0) (cstr "clear") Driver.init).map (fun r => busFrames r.2.2) =
      some [[0xC0, 0xBF], [0xC2, 0xBF], [0xC4, 0xBF], [0xC6, 0xBF], [0xC8, 0xBF],
        [0xCA, 0x3F]] ∧
    (keys_store (fun _ => 0) (cstr "clear") Driver.init).map (fun r => busFrames r.2.2) ≠
      some [[0xC0, 0x00], [0xC2, 0x00], [0xC4, 0x00], [0xC6, 0x00], [0xC8, 0x00],
        [0xCA, 0x00]] := by
  decide

/-- C10, amended: for every prior state, a write of `clear` (with or without the newline)
to `keys` succeeds, zeroes the key buffer and its index, so the queue is empty, and writes
the string `0.0.0.0.0.0` to the display: the six grids, at addresses `0xC0, 0xC2, ..., 0xCA`,
get `0xBF` (digit 0 with decimal point) on grids 0 to 4 and `0x3F` (digit 0) on grid 5. -/
theorem keys_store_clear_shows_zeros (junk : Nat → Nat) (buf : List Int) (d : Driver)
    (h : sysfs_streq buf (cstr "clear") = true) :
    ∃ d' evs, keys_store junk buf d = some ((buf.length : Int), d', evs) ∧
      d'.key_buffer_index_global = 0 ∧
      d'.key_buffer_global = List.replicate KEY_BUFFER_SIZE 0 ∧
      queued d' = [] ∧
      evs = tm1628_display_pattern [0xBF, 0xBF, 0xBF, 0xBF, 0xBF, 0x3F] ∧
      busFrames evs =
        [[0xC0, 0xBF], [0xC2, 0xBF], [0xC4, 0xBF], [0xC6, 0xBF], [0xC8, 0xBF], [0xCA, 0x3F]] :=
  ⟨_, _, keys_store_clear_eq junk buf d h, rfl, rfl, rfl, rfl, busFrames_zeros⟩

/-- Witness for C10 (amended): `clear` with its newline, after two keys were queued. -/
theorem keys_store_clear_shows_zeros_witness :
    sysfs_streq (cstr "clear\n") (cstr "clear") = true ∧
    ∃ d' evs, keys_store (fun _ => 0xFF) (cstr "clear\n")
        { Driver.init with key_buffer_global := cstr "12" ++ List.replicate 62 0
                           key_buffer_index_global := 2 } =
        some (((cstr "clear\n").length : Int), d', evs) ∧
      d'.key_buffer_index_global = 0 ∧
      d'.key_buffer_global = List.replicate KEY_BUFFER_SIZE 0 ∧
      queued d' = [] ∧
      evs = tm1628_display_pattern [0xBF, 0xBF, 0xBF, 0xBF, 0xBF, 0x3F] ∧
      busFrames evs =
        [[0xC0, 0xBF], [0xC2, 0xBF], [0xC4, 0xBF], [0xC6, 0xBF], [0xC8, 0xBF], [0xCA, 0x3F]] :=
  ⟨by decide, keys_store_clear_shows_zeros (fun _ => 0xFF) (cstr "clear\n") _ (by decide)⟩

theorem wire_display_pattern_loop (pattern : List Nat) :
    ∀ n i (w : Wire), w.stb = true → w.out = true →
      ∃ w', (tm1628_display_pattern_loop pattern n i).foldl Wire.step w = w' ∧
        w'.stb = true ∧ w'.out = true ∧
        w'.done = w.done ++
          (List.range n).map
            (fun k => [grid_addresses.getD (i + k) 0 % 256, pattern.getD (i + k) 0 % 256]) := by
  intro n
  induction n with
  | zero =>
    intro i w hstb hout
    exact ⟨w, rfl, hstb, hout, by simp⟩
  | succ n ih =>
    intro i w hstb hout
    unfold tm1628_display_pattern_loop
    rw [List.foldl_append]
    obtain ⟨w1, h1, h2, h3, h4⟩ :=
      wire_send_pair (grid_addresses.getD i 0) (pattern.getD i 0) w hstb hout
    rw [h1]
    obtain ⟨w2, g1, g2, g3, g4⟩ := ih (i + 1) w1 h2 h3
    refine ⟨w2, g1, g2, g3, ?_⟩
    have key : (List.range (n + 1)).map
          (fun k => [grid_addresses.getD (i + k) 0 % 256, pattern.getD (i + k) 0 % 256]) =
        [grid_addresses.getD i 0 % 256, pattern.getD i 0 % 256] ::
          (List.range n).map
            (fun k => [grid_addresses.getD (i + 1 + k) 0 % 256,
              pattern.getD (i + 1 + k) 0 % 256]) := by
      rw [List.range_succ_eq_map, List.map_cons, List.map_map]
      refine congrArg₂ List.cons rfl ?_
      apply List.map_congr_left
      intro k _
      have e : i + 1 + k = i + (k + 1) := by omega
      show [grid_addresses.getD (i + (k + 1)) 0 % 256, pattern.getD (i + (k + 1)) 0 % 256] = _
      rw [e]
    rw [g4, h4, key, List.append_assoc]
    rfl

theorem grid_address_eq : ∀ k, k < 6 → grid_addresses.getD (0 + k) 0 % 256 = 0xC0 + 2 * k := by
  decide

/-- The transactions on the bus when `tm1628_init_display` is followed by
`tm1628_display_pattern`: the three commands, then one (address, data) pair for each of the
six entries of `grid_addresses`. -/
theorem busFrames_init_then_pattern (d : Driver) (hm : d.mode_cmd < 256) (pattern : List Nat)
    (hp : ∀ k, k < 6 → pattern.getD k 0 < 256) :
    busFrames (tm1628_init_display d ++ tm1628_display_pattern pattern) =
      [[d.mode_cmd], [0x40], [0x80 ||| (toUChar d.current_brightness &&& 0x0F)]] ++
        (List.range 6).map (fun k => [0xC0 + 2 * k, pattern.getD k 0]) := by
  unfold busFrames tm1628_init_display tm1628_set_brightness tm1628_display_pattern
  simp only [List.foldl_append]
  obtain ⟨w1, h1, s1, o1, d1⟩ := wire_send_command d.mode_cmd Wire.idle rfl rfl
  rw [h1]
  obtain ⟨w2, h2, s2, o2, d2⟩ := wire_send_command 0x40 w1 s1 o1
  rw [h2]
  obtain ⟨w3, h3, s3, o3, d3⟩ :=
    wire_send_command (0x80 ||| (toUChar d.current_brightness &&& 0x0F)) w2 s2 o2
  rw [h3]
  obtain ⟨w4, h4, s4, o4, d4⟩ := wire_display_pattern_loop pattern 6 0 w3 s3 o3
  rw [h4]
  have hcmd : (0x80 ||| (toUChar d.current_brightness &&& 0x0F)) % 256 =
      0x80 ||| (toUChar d.current_brightness &&& 0x0F) := by
    have h15 : toUChar d.current_brightness &&& 0x0F ≤ 0x0F := Nat.and_le_right
    apply Nat.mod_eq_of_lt
    exact Nat.or_lt_two_pow (n := 8) (by decide) (by omega)
  have hmap : (List.range 6).map
        (fun k => [grid_addresses.getD (0 + k) 0 % 256, pattern.getD (0 + k) 0 % 256]) =
      (List.range 6).map (fun k => [0xC0 + 2 * k, pattern.getD k 0]) := by
    apply List.map_congr_left
    intro k hk
    have hk6 : k < 6 := List.mem_range.mp hk
    rw [grid_address_eq k hk6, Nat.zero_add, Nat.mod_eq_of_lt (hp k hk6)]
  simp only [tm1628_delay_us, List.foldl_cons, List.foldl_nil, Wire.step]
  rw [d4, d3, d2, d1, hcmd, hmap, Nat.mod_eq_of_lt hm]
  rfl

theorem dotted_lt (p : Int × Int) : dotted p < 256 := by
  unfold dotted
  have h := tm1628_map_char_lt p.1
  apply Nat.or_lt_two_pow (n := 8) (by omega)
  split_ifs <;> decide

theorem getD_lt_of_all (l : List Nat) (h : ∀ x ∈ l, x < 256) (k : Nat) : l.getD k 0 < 256 := by
  by_cases hk : k < l.length
  · rw [List.getD_eq_getElem l 0 hk]
    exact h _ (List.getElem_mem hk)
  · rw [List.getD_eq_default l 0 (by omega)]
    decide

/-- The transactions that `tm1628_display_pattern` writes: one (address, data) pair for each of
the six entries of `grid_addresses`. -/
theorem busFrames_display_pattern (pattern : List Nat)
    (hp : ∀ k, k < 6 → pattern.getD k 0 < 256) :
    busFrames (tm1628_display_pattern pattern) =
      (List.range 6).map (fun k => [0xC0 + 2 * k, pattern.getD k 0]) := by
  unfold busFrames tm1628_display_pattern
  rw [List.foldl_append]
  obtain ⟨w', h1, _, _, h4⟩ := wire_display_pattern_loop pattern 6 0 Wire.idle rfl rfl
  rw [h1]
  simp only [tm1628_delay_us, List.foldl_cons, List.foldl_nil, Wire.step]
  rw [h4]
  show [] ++ _ = _
  rw [List.nil_append]
  apply List.map_congr_left
  intro k hk
  have hk6 : k < 6 := List.mem_range.mp hk
  rw [grid_address_eq k hk6, Nat.zero_add, Nat.mod_eq_of_lt (hp k hk6)]

/-- C12: the claim fails on the code. The text `keys_show` prints on the empty queue is the
line `0`, which is also the text it prints when it pops the key `0` that `key_map` produces for
bit 1 of scan byte 2; among the keys of `key_map` this is the only collision. -/
theorem keys_show_empty_line_collides :
    get_pressed_key_driver [0x00, 0x00, 0x02, 0x00, 0x00] = 48 ∧
    (thread_key_block [0x00, 0x00, 0x02, 0x00, 0x00] Driver.init).map queued =
      some (cstr "0") ∧
    ((thread_key_block [0x00, 0x00, 0x02, 0x00, 0x00] Driver.init).bind keys_show).map
      (fun r => (r.1, queued r.2)) = some (cstr "0\n", []) ∧
    (keys_show Driver.init).map (fun r => (r.1, queued r.2)) = some (cstr "0\n", []) ∧
    ∀ e ∈ key_map, ([e.key, 10] = cstr "0\n" ↔ e.key = 48) := by
  decide

theorem display_grids_concrete (junk : Nat → Nat) (str : List Int) (pat : List Nat)
    (hstr : ∀ c ∈ str, c ≠ 0)
    (hpat : (List.range 6).map (fun k => ((nonDotChars str).map dotted).getD k 0) = pat) :
    tm1628_display_grids junk str = some (tm1628_display_pattern pat) := by
  unfold tm1628_display_grids
  rw [display_grids_pattern_eq junk str hstr, hpat]
  rfl

/-- C13 fails as stated: after the mode `4x13` is selected a display update writes six
(address, data) pairs, not four, and after `7x10` it writes six, not seven. -/
theorem display_update_mode_counterexample :
    (displaymode_config_store (cstr "4x13") Driver.init).2.1.mode_cmd = 0x00 ∧
    (tm1628_display_grids (fun _ => 0) (cstr "1234")).map
      (fun evs => busFrames ((displaymode_config_store (cstr "4x13") Driver.init).2.2 ++ evs)) =
      some [[0x00], [0x40], [0x8A],
        [0xC0, 0x06], [0xC2, 0x5B], [0xC4, 0x4F], [0xC6, 0x66], [0xC8, 0x00], [0xCA, 0x00]] ∧
    (tm1628_display_grids (fun _ => 0) (cstr "1234")).map
      (fun evs => (busFrames evs).length) = some 6 ∧
    (displaymode_config_store (cstr "7x10") Driver.init).2.1.mode_cmd = 0x03 ∧
    (tm1628_display_grids (fun _ => 0) (cstr "1234567")).map
      (fun evs => busFrames ((displaymode_config_store (cstr "7x10") Driver.init).2.2 ++ evs)) =
      some [[0x03], [0x40], [0x8A],
        [0xC0, 0x06], [0xC2, 0x5B], [0xC4, 0x4F], [0xC6, 0x66], [0xC8, 0x6D], [0xCA, 0x7D]] ∧
    (tm1628_display_grids (fun _ => 0) (cstr "1234567")).map
      (fun evs => (busFrames evs).length) = some 6 := by
  have h4 := display_grids_concrete (fun _ => 0) (cstr "1234")
    [0x06, 0x5B, 0x4F, 0x66, 0x00, 0x00] (by decide) (by decide)
  have h7 := display_grids_concrete (fun _ => 0) (cstr "1234567")
    [0x06, 0x5B, 0x4F, 0x66, 0x6D, 0x7D] (by decide) (by decide)
  have hp4 : ∀ k, k < 6 → ([0x06, 0x5B, 0x4F, 0x66, 0x00, 0x00] : List Nat).getD k 0 < 256 := by
    decide
  have hp7 : ∀ k, k < 6 → ([0x06, 0x5B, 0x4F, 0x66, 0x6D, 0x7D] : List Nat).getD k 0 < 256 := by
    decide
  have s4 : (displaymode_config_store (cstr "4x13") Driver.init).2.2 =
      tm1628_init_display { Driver.init with mode_cmd := 0x00 } := rfl
  have s7 : (displaymode_config_store (cstr "7x10") Driver.init).2.2 =
      tm1628_init_display { Driver.init with mode_cmd := 0x03 } := rfl
  rw [h4, h7, s4, s7]
  simp only [Option.map_some']
  rw [busFrames_init_then_pattern _ (by decide) _ hp4,
    busFrames_init_then_pattern _ (by decide) _ hp7,
    busFrames_display_pattern _ hp4, busFrames_display_pattern _ hp7]
  refine ⟨rfl, by decide, by decide, rfl, by decide, by decide⟩

/-- C13, amended: for each of the four display modes selected through
`displaymode_config_store`, a following display update of a NUL-free string writes exactly six
strobe-framed (address, data) pairs, whatever the mode, in increasing grid index order
`0..5`, with address `0xC0 + 2 * index` and data the rendered pattern byte of that grid; on the
bus they follow the three initialisation commands of the store (mode, `0x40`, brightness). -/
theorem display_update_writes_six_pairs (junk : Nat → Nat) (d : Driver) (x : List Int)
    (hx : x ∈ modeNames) (str : List Int) (hstr : ∀ c ∈ str, c ≠ 0) :
    ∃ pat evs, display_grids_pattern junk str = some pat ∧ pat.length = 6 ∧
      tm1628_display_grids junk str = some evs ∧
      busFrames evs = (List.range 6).map (fun k => [0xC0 + 2 * k, pat.getD k 0]) ∧
      busFrames ((displaymode_config_store x d).2.2 ++ evs) =
        [[(displaymode_config_store x d).2.1.mode_cmd], [0x40],
          [0x80 ||| (toUChar d.current_brightness &&& 0x0F)]] ++
        (List.range 6).map (fun k => [0xC0 + 2 * k, pat.getD k 0]) := by
  have hpat := display_grids_pattern_eq junk str hstr
  have hp : ∀ k, k < 6 →
      ((List.range 6).map (fun k => ((nonDotChars str).map dotted).getD k 0)).getD k 0 <
        256 := by
    intro k _
    apply getD_lt_of_all
    intro y hy
    obtain ⟨j, _, rfl⟩ := List.mem_map.mp hy
    apply getD_lt_of_all
    intro z hz
    obtain ⟨p, _, rfl⟩ := List.mem_map.mp hz
    exact dotted_lt p
  have hev : tm1628_display_grids junk str = some (tm1628_display_pattern
      ((List.range 6).map (fun k => ((nonDotChars str).map dotted).getD k 0))) := by
    unfold tm1628_display_grids
    rw [hpat]
    rfl
  refine ⟨_, _, hpat, by simp, hev, busFrames_display_pattern _ hp, ?_⟩
  have hx' : x = cstr "4x13" ∨ x = cstr "5x12" ∨ x = cstr "6x11" ∨ x = cstr "7x10" := by
    simpa [modeNames] using hx
  rcases hx' with rfl | rfl | rfl | rfl
  · exact busFrames_init_then_pattern { d with mode_cmd := 0x00 }
      (by show (0x00 : Nat) < 256; decide) _ hp
  · exact busFrames_init_then_pattern { d with mode_cmd := 0x01 }
      (by show (0x01 : Nat) < 256; decide) _ hp
  · exact busFrames_init_then_pattern { d with mode_cmd := 0x02 }
      (by show (0x02 : Nat) < 256; decide) _ hp
  · exact busFrames_init_then_pattern { d with mode_cmd := 0x03 }
      (by show (0x03 : Nat) < 256; decide) _ hp

/-- Witness for C13 (amended): the mode `7x10`, then a string of seven digits with a dot. -/
theorem display_update_writes_six_pairs_witness :
    cstr "7x10" ∈ modeNames ∧ (∀ c ∈ cstr "12.34567", c ≠ 0) ∧
    ∃ pat evs, display_grids_pattern (fun _ => 0xFF) (cstr "12.34567") = some pat ∧
      pat.length = 6 ∧
      tm1628_display_grids (fun _ => 0xFF) (cstr "12.34567") = some evs ∧
      busFrames evs = (List.range 6).map (fun k => [0xC0 + 2 * k, pat.getD k 0]) ∧
      busFrames ((displaymode_config_store (cstr "7x10") Driver.init).2.2 ++ evs) =
        [[(displaymode_config_store (cstr "7x10") Driver.init).2.1.mode_cmd], [0x40],
          [0x80 ||| (toUChar Driver.init.current_brightness &&& 0x0F)]] ++
        (List.range 6).map (fun k => [0xC0 + 2 * k, pat.getD k 0]) :=
  ⟨by decide, by decide,
   display_update_writes_six_pairs (fun _ => 0xFF) Driver.init (cstr "7x10") (by decide)
     (cstr "12.34567") (by decide)⟩

end TM1628
